import Mathlib

/-
Verification of the RoomVisionAI detection-validation and scoring pipeline.

The definitions below are a shallow embedding of the Python sources:
  * `backend/src/domain/value_objects/bounding_box.py`  (BoundingBox)
  * `backend/tests/integration/validation_pipeline.py`  (ValidationPipeline)
  * `backend/src/application/validators/room_validator.py` (RoomValidator)
  * `backend/src/infrastructure/parsers/response_parser.py` (ResponseParser)
  * `backend/src/application/use_cases/detect_rooms.py` (DetectRoomsUseCase)

Python floats are modelled as rationals (ℚ); a raised `ValueError` is
modelled as `Except.error` carrying the exception's message string.
-/

namespace RoomVision

/-! ## Geometry: `BoundingBox` (bounding_box.py) -/

/-- Immutable rectangular bounding box `[x_min, y_min, x_max, y_max]`,
mirroring the `BoundingBox` dataclass. -/
structure BoundingBox where
  x_min : ℚ
  y_min : ℚ
  x_max : ℚ
  y_max : ℚ
deriving DecidableEq

/-- Width of the box (`BoundingBox.width`). -/
def BoundingBox.width (b : BoundingBox) : ℚ := b.x_max - b.x_min

/-- Height of the box (`BoundingBox.height`). -/
def BoundingBox.height (b : BoundingBox) : ℚ := b.y_max - b.y_min

/-- Area of the box (`BoundingBox.area`). -/
def BoundingBox.area (b : BoundingBox) : ℚ := b.width * b.height

/-- Constructor checks of `BoundingBox.__post_init__`: each coordinate in
`[0, 1000]`, then strict ordering `x_min < x_max`, `y_min < y_max`.  A failed
check raises `ValueError` with the message built in the source. -/
def mkBoundingBox (x_min y_min x_max y_max : ℚ) : Except String BoundingBox :=
  if ¬(0 ≤ x_min ∧ x_min ≤ 1000) then
    .error ("x_min must be between 0 and 1000, got " ++ toString x_min)
  else if ¬(0 ≤ y_min ∧ y_min ≤ 1000) then
    .error ("y_min must be between 0 and 1000, got " ++ toString y_min)
  else if ¬(0 ≤ x_max ∧ x_max ≤ 1000) then
    .error ("x_max must be between 0 and 1000, got " ++ toString x_max)
  else if ¬(0 ≤ y_max ∧ y_max ≤ 1000) then
    .error ("y_max must be between 0 and 1000, got " ++ toString y_max)
  else if x_max ≤ x_min then
    .error ("x_min (" ++ toString x_min ++ ") must be less than x_max (" ++
      toString x_max ++ ")")
  else if y_max ≤ y_min then
    .error ("y_min (" ++ toString y_min ++ ") must be less than y_max (" ++
      toString y_max ++ ")")
  else .ok ⟨x_min, y_min, x_max, y_max⟩

/-- `BoundingBox.from_list`: length check, then construction. -/
def BoundingBox.from_list (coords : List ℚ) : Except String BoundingBox :=
  match coords with
  | [a, b, c, d] => mkBoundingBox a b c d
  | l => .error ("Expected 4 coordinates, got " ++ toString l.length)

/-- Validity of a raw coordinate list: exactly the condition under which
`BoundingBox.from_list` succeeds (4 elements, all in `[0,1000]`, strict
min/max ordering). -/
def validBoxB (l : List ℚ) : Bool :=
  match l with
  | [a, b, c, d] =>
    decide ((0 ≤ a ∧ a ≤ 1000) ∧ (0 ≤ b ∧ b ≤ 1000) ∧ (0 ≤ c ∧ c ≤ 1000) ∧
      (0 ≤ d ∧ d ≤ 1000) ∧ a < c ∧ b < d)
  | _ => false

/-! ## Scoring pipeline (`ValidationPipeline`, validation_pipeline.py) -/

/-- Body of `ValidationPipeline.calculate_iou` after both boxes are built:
intersection via max/min, zero on empty or merely touching overlap, then
`intersection / union`. -/
def iouValue (p t : BoundingBox) : ℚ :=
  let x1 := max p.x_min t.x_min
  let y1 := max p.y_min t.y_min
  let x2 := min p.x_max t.x_max
  let y2 := min p.y_max t.y_max
  if x2 ≤ x1 ∨ y2 ≤ y1 then 0
  else
    let intersection := (x2 - x1) * (y2 - y1)
    let union := p.area + t.area - intersection
    if union = 0 then 0 else intersection / union

/-- `ValidationPipeline.calculate_iou`: both inputs are first converted via
`BoundingBox.from_list` (whose `ValueError` propagates), then scored. -/
def calculate_iou (pred_box true_box : List ℚ) : Except String ℚ := do
  let p ← BoundingBox.from_list pred_box
  let t ← BoundingBox.from_list true_box
  pure (iouValue p t)

/-- IoU of two raw lists as a plain rational; equals the `calculate_iou`
result whenever both lists are valid (and is irrelevant otherwise). -/
def iouL (a b : List ℚ) : ℚ := ((calculate_iou a b).toOption).getD 0

/-- A room record as consumed by the scoring pipeline: a dictionary with a
`bounding_box` entry (the `id` stands for the rest of the dictionary's
identity). -/
structure RoomRec where
  id : String
  bounding_box : List ℚ
deriving DecidableEq

/-- Python's `enumerate`, starting at `n`. -/
def enum_from (n : ℕ) : List α → List (ℕ × α)
  | [] => []
  | a :: as => (n, a) :: enum_from (n + 1) as

/-- Inner loop of `ValidationPipeline.match_rooms`: iterate over the
enumerated ground-truth rooms, skipping used indices, computing the IoU
(whose exception propagates) and keeping the strictly best candidate with
IoU at or above the threshold.  State `(best_iou, best)` starts at
`(0, none)`; `best` couples Python's `best_match` and `best_gt_idx`
(`if best_match:` is truthy exactly when a non-empty dictionary was stored,
and every stored ground-truth dictionary is non-empty since it carries a
`bounding_box` key). -/
def find_best (pred_bb : List ℚ) (thr : ℚ) :
    List (ℕ × RoomRec) → List ℕ → ℚ → Option (RoomRec × ℕ) →
    Except String (ℚ × Option (RoomRec × ℕ))
  | [], _, best_iou, best => .ok (best_iou, best)
  | (idx, gt) :: rest, used, best_iou, best =>
    if idx ∈ used then find_best pred_bb thr rest used best_iou best
    else do
      let iou ← calculate_iou pred_bb gt.bounding_box
      if best_iou < iou ∧ thr ≤ iou then
        find_best pred_bb thr rest used iou (some (gt, idx))
      else
        find_best pred_bb thr rest used best_iou best

/-- Outer loop of `match_rooms`: predictions in input order, threading the
set of used ground-truth indices and appending `(pred, gt, iou)` on a hit. -/
def match_go (gts : List RoomRec) (thr : ℚ) :
    List RoomRec → List ℕ → Except String (List (RoomRec × RoomRec × ℚ))
  | [], _ => .ok []
  | p :: ps, used => do
    let r ← find_best p.bounding_box thr (enum_from 0 gts) used 0 none
    match r with
    | (best_iou, some (g, idx)) => do
        let rest ← match_go gts thr ps (idx :: used)
        pure ((p, g, best_iou) :: rest)
    | (_, none) => match_go gts thr ps used

/-- `ValidationPipeline.match_rooms` (threshold explicit; the Python default
is `0.5`). -/
def match_rooms (predicted_rooms ground_truth_rooms : List RoomRec)
    (iou_threshold : ℚ) : Except String (List (RoomRec × RoomRec × ℚ)) :=
  match_go ground_truth_rooms iou_threshold predicted_rooms []

/-! Specification-side matching, written from the spec's words: for each
prediction in input order, among the unused ground-truth rooms whose IoU
qualifies, take the one with the highest IoU, first in iteration order on
ties.  The qualification predicate is a parameter so that the claimed
reading ("at or above the threshold") and the amended reading ("at or above
the threshold and strictly positive") can be compared. -/

/-- Claimed qualification: IoU at or above the threshold. -/
def qualifies_claimed (thr iou : ℚ) : Bool := decide (thr ≤ iou)

/-- Amended qualification: IoU at or above the threshold and strictly
positive. -/
def qualifies_actual (thr iou : ℚ) : Bool := decide (thr ≤ iou) && decide (0 < iou)

/-- Qualifying candidates for one prediction: unused ground-truth rooms,
tagged with index and IoU, filtered by the qualification predicate. -/
def cand_list (pred_bb : List ℚ) (thr : ℚ) (qual : ℚ → ℚ → Bool)
    (gts_e : List (ℕ × RoomRec)) (used : List ℕ) : List (ℕ × RoomRec × ℚ) :=
  ((gts_e.filter (fun p => decide (p.1 ∉ used))).map
    (fun p => (p.1, p.2, iouL pred_bb p.2.bounding_box))).filter
    (fun t => qual thr t.2.2)

/-- First element attaining the maximal IoU of the list (ties keep the
earlier element). -/
def first_argmax : List (ℕ × RoomRec × ℚ) → Option (ℕ × RoomRec × ℚ)
  | [] => none
  | t :: ts =>
    match first_argmax ts with
    | none => some t
    | some u => if t.2.2 < u.2.2 then some u else some t

/-- Specification-side greedy matching loop. -/
def spec_go (qual : ℚ → ℚ → Bool) (gts_e : List (ℕ × RoomRec)) (thr : ℚ) :
    List RoomRec → List ℕ → List (RoomRec × RoomRec × ℚ)
  | [], _ => []
  | p :: ps, used =>
    match first_argmax (cand_list p.bounding_box thr qual gts_e used) with
    | some (idx, g, v) => (p, g, v) :: spec_go qual gts_e thr ps (idx :: used)
    | none => spec_go qual gts_e thr ps used

/-- Specification-side `match_rooms`. -/
def match_rooms_spec (qual : ℚ → ℚ → Bool)
    (predicted_rooms ground_truth_rooms : List RoomRec) (thr : ℚ) :
    List (RoomRec × RoomRec × ℚ) :=
  spec_go qual (enum_from 0 ground_truth_rooms) thr predicted_rooms []

/-- Result dictionary of `ValidationPipeline.calculate_metrics`. -/
structure Metrics where
  total_ground_truth : ℤ
  total_detected : ℤ
  matched : ℤ
  false_positives : ℤ
  false_negatives : ℤ
  average_iou : ℚ
  detection_rate : ℚ
  false_positive_rate : ℚ
  precision : ℚ
  recall_metric : ℚ
  f1_score : ℚ
  ious : List ℚ
deriving DecidableEq

/-- `ValidationPipeline.calculate_metrics`: matches at the default threshold
`0.5`, then the guarded ratio computations of the source. -/
def calculate_metrics (predicted_rooms ground_truth_rooms : List RoomRec) :
    Except String Metrics := do
  let ms ← match_rooms predicted_rooms ground_truth_rooms (1/2)
  let ious := ms.map (fun m => m.2.2)
  let avg_iou : ℚ := if ious.isEmpty then 0 else ious.sum / (ious.length : ℚ)
  let detection_rate : ℚ :=
    if ground_truth_rooms.isEmpty then 0
    else (ms.length : ℚ) / (ground_truth_rooms.length : ℚ)
  let false_positives : ℤ := (predicted_rooms.length : ℤ) - (ms.length : ℤ)
  let false_positive_rate : ℚ :=
    if predicted_rooms.isEmpty then 0
    else (false_positives : ℚ) / (predicted_rooms.length : ℚ)
  let precision : ℚ :=
    if predicted_rooms.isEmpty then 0
    else (ms.length : ℚ) / (predicted_rooms.length : ℚ)
  let recall_v : ℚ := detection_rate
  let f1_score : ℚ :=
    if 0 < precision + recall_v then 2 * (precision * recall_v) / (precision + recall_v)
    else 0
  pure
    { total_ground_truth := (ground_truth_rooms.length : ℤ)
      total_detected := (predicted_rooms.length : ℤ)
      matched := (ms.length : ℤ)
      false_positives := false_positives
      false_negatives := (ground_truth_rooms.length : ℤ) - (ms.length : ℤ)
      average_iou := avg_iou
      detection_rate := detection_rate
      false_positive_rate := false_positive_rate
      precision := precision
      recall_metric := recall_v
      f1_score := f1_score
      ious := ious }

/-- Disjointness of two raw boxes `[a1,b1,c1,d1]`, `[a2,b2,c2,d2]`: the
rectangles do not overlap, edge- or corner-touching included. -/
def disjointBoxes (l m : List ℚ) : Bool :=
  match l, m with
  | [a1, b1, c1, d1], [a2, b2, c2, d2] =>
    decide (c1 ≤ a2 ∨ c2 ≤ a1 ∨ d1 ≤ b2 ∨ d2 ≤ b1)
  | _, _ => false

/-! ## JSON values and the room validator (room_validator.py) -/

/-- Parsed JSON values, the shape of untrusted model-output records. -/
inductive Json where
  | null : Json
  | bool (b : Bool) : Json
  | num (q : ℚ) : Json
  | str (s : String) : Json
  | arr (xs : List Json) : Json
  | obj (kvs : List (String × Json)) : Json

/-- Python's `type(v)` rendering, as it appears in error messages. -/
def typeName : Json → String
  | .null => "<class 'NoneType'>"
  | .bool _ => "<class 'bool'>"
  | .num _ => "<class 'float'>"
  | .str _ => "<class 'str'>"
  | .arr _ => "<class 'list'>"
  | .obj _ => "<class 'dict'>"

/-- Python's `str(v)` for the values that can appear inside the validator's
f-string messages. -/
def pyStr : Json → String
  | .null => "None"
  | .bool b => cond b "True" "False"
  | .num q => toString q
  | .str s => s
  | .arr _ => "[...]"
  | .obj _ => "{...}"

/-- Numeric reading of a coordinate, mirroring
`isinstance(coord, (int, float))`: numbers count, and Python booleans count
as the integers 0/1 (`bool` is a subclass of `int`). -/
def coordNum : Json → Option ℚ
  | .num q => some q
  | .bool b => some (cond b 1 0)
  | _ => none

/-- One iteration of the coordinate loop of
`RoomValidator.validate_bounding_box`: the numeric-type check, then the
`[0, 1000]` range check (`COORDINATE_MIN`/`COORDINATE_MAX`). -/
def check_coord (v : Json) (nm : String) : Except String ℚ :=
  match coordNum v with
  | none => .error (nm ++ " must be a number, got " ++ typeName v)
  | some q =>
    if 0 ≤ q ∧ q ≤ 1000 then .ok q
    else .error (nm ++ " (" ++ pyStr v ++ ") must be between 0 and 1000")

/-- `RoomValidator.validate_bounding_box`.  The `room_id` argument is part
of the Python signature; the source never uses it. -/
def validate_bounding_box (bbox : Json) (room_id : Option String) :
    Except String Bool :=
  match bbox with
  | .arr [xm, ym, xM, yM] => do
    let a ← check_coord xm "x_min"
    let b ← check_coord ym "y_min"
    let c ← check_coord xM "x_max"
    let d ← check_coord yM "y_max"
    if c ≤ a then
      .error ("x_min (" ++ pyStr xm ++ ") must be less than " ++
        ("x_max" ++ (" (" ++ pyStr xM ++ ")")))
    else if d ≤ b then
      .error ("y_min (" ++ pyStr ym ++ ") must be less than " ++
        ("y_max" ++ (" (" ++ pyStr yM ++ ")")))
    else .ok true
  | .arr l => .error ("Bounding box must have 4 coordinates, got " ++
      toString l.length)
  | v => .error ("Bounding box must be a list, got " ++ typeName v)

/-- An untrusted room record (a Python dictionary): the two keys the
validator inspects, each possibly absent. -/
structure RawRoom where
  id : Option String
  bounding_box : Option Json

/-- `RoomValidator.validate_room`: required keys, then bounding-box
validation (passing the room's id along). -/
def validate_room (room : RawRoom) : Except String Bool :=
  match room.id with
  | none => .error "Room missing 'id' field"
  | some rid =>
    match room.bounding_box with
    | none => .error ("Room " ++ rid ++ " missing 'bounding_box' field")
    | some bbox => validate_bounding_box bbox (some rid)

/-- Whether an `Except` computation succeeded. -/
def exceptOk : Except ε α → Bool
  | .ok _ => true
  | .error _ => false

/-- `RoomValidator.validate_rooms`: per-record validation, `ValueError`s
downgraded to a dropped record (plus a logged warning, a side effect outside
this model). -/
def validate_rooms : List RawRoom → List RawRoom
  | [] => []
  | r :: rest =>
    match validate_room r with
    | .ok _ => r :: validate_rooms rest
    | .error _ => validate_rooms rest

/-- `RoomValidator.sanitize_coordinates`: clamp each coordinate into
`[0, 1000]`, then nudge the max by one unit (clamped at 1000) if ordering
collapsed.  `none` models the `ValueError` Python raises when unpacking a
list whose length is not 4. -/
def sanitize_coordinates (bbox : List ℚ) : Option (List ℚ) :=
  match bbox with
  | [x_min, y_min, x_max, y_max] =>
    let xm := max 0 (min x_min 1000)
    let ym := max 0 (min y_min 1000)
    let xM := max 0 (min x_max 1000)
    let yM := max 0 (min y_max 1000)
    let xM' := if xM ≤ xm then min (xm + 1) 1000 else xM
    let yM' := if yM ≤ ym then min (ym + 1) 1000 else yM
    some [xm, ym, xM', yM']
  | _ => none

/-! ## Response parser (response_parser.py)

`extract_json_from_response` is a direct model of the two `re.search`
calls.  Both patterns are lazy, so their leftmost-shortest match semantics
can be written as plain recursive scans:

  * `` ```(?:json)?\s*(\[.*?\])\s*``` `` (DOTALL): at the leftmost
    occurrence of three backticks followed by an optional literal `json`,
    whitespace and `[`, the group extends to the first `]` that is followed
    by whitespace and three backticks.  (Backtracking over `(?:json)?`
    cannot rescue a failed match: without consuming `json` the next
    character is `j`, not `[`.)
  * `(\[.*?\])` (DOTALL): from the first `[` in the text to the first `]`
    after it.
-/

/-- Characters matched by the regex class `\s` (ASCII range). -/
def isSpaceChar (c : Char) : Bool :=
  c = ' ' || c = '\t' || c = '\n' || c = '\r' || c = '\x0b' || c = '\x0c'

/-- Drop leading `\s` characters. -/
def skipWs (cs : List Char) : List Char := cs.dropWhile isSpaceChar

/-- Python's `str.strip()`. -/
def stripChars (cs : List Char) : List Char :=
  ((skipWs cs).reverse.dropWhile isSpaceChar).reverse

/-- Does a closing fence follow (whitespace, then three backticks)? -/
def fenceFollows (cs : List Char) : Bool :=
  "```".toList.isPrefixOf (skipWs cs)

/-- Lazy scan for the group's closing `]` that is followed by the closing
fence; returns the group's characters from just after `[` through that `]`. -/
def lazyCloseFence : List Char → Option (List Char)
  | [] => none
  | c :: rest =>
    if c = ']' && fenceFollows rest then some [']']
    else (lazyCloseFence rest).map (fun p => c :: p)

/-- Attempt the fenced-block pattern at this position. -/
def fenceAt (cs : List Char) : Option (List Char) :=
  if "```".toList.isPrefixOf cs then
    let afterTicks := cs.drop 3
    let afterJson :=
      if "json".toList.isPrefixOf afterTicks then afterTicks.drop 4
      else afterTicks
    match skipWs afterJson with
    | '[' :: rest => (lazyCloseFence rest).map (fun p => '[' :: p)
    | _ => none
  else none

/-- Leftmost match of the fenced-block pattern. -/
def scanFence : List Char → Option (List Char)
  | [] => none
  | c :: rest =>
    match fenceAt (c :: rest) with
    | some g => some g
    | none => scanFence rest

/-- Suffix starting just after the first `[`. -/
def afterFirstOpen : List Char → Option (List Char)
  | [] => none
  | '[' :: rest => some rest
  | _ :: rest => afterFirstOpen rest

/-- Characters through the first `]`, inclusive. -/
def takeThroughClose : List Char → Option (List Char)
  | [] => none
  | c :: rest =>
    if c = ']' then some [']']
    else (takeThroughClose rest).map (fun p => c :: p)

/-- Leftmost-shortest match of the bare `(\[.*?\])` pattern. -/
def scanArraySpan (cs : List Char) : Option (List Char) :=
  (afterFirstOpen cs).bind (fun rest =>
    (takeThroughClose rest).map (fun p => '[' :: p))

/-- `ResponseParser.extract_json_from_response`: fenced block first, then
bare array span, then the stripped raw text. -/
def extract_json_from_response (response_text : String) : String :=
  let cs := response_text.toList
  match scanFence cs with
  | some g => ⟨g⟩
  | none =>
    match scanArraySpan cs with
    | some g => ⟨g⟩
    | none => ⟨stripChars cs⟩

/-! A model of Python's `json.loads` (standard library), needed because
`parse_room_data` delegates to it: a strict recursive-descent JSON parser.
Numbers become rationals; `\u` escapes outside the basic plane and the
exact `JSONDecodeError` message texts are simplified. -/

/-- Digit run of a character list: value of the digits. -/
def digitsToNat (ds : List Char) : ℕ :=
  ds.foldl (fun n c => 10 * n + (c.toNat - 48)) 0

/-- JSON integer part: `0` or a nonzero digit followed by digits. -/
def parseIntPart : List Char → Option (ℕ × List Char)
  | [] => none
  | c :: rest =>
    if c = '0' then some (0, rest)
    else if c.isDigit then
      some (digitsToNat (c :: rest.takeWhile Char.isDigit),
        rest.dropWhile Char.isDigit)
    else none

/-- JSON fraction part (empty allowed, returning 0). -/
def parseFrac : List Char → Option (ℚ × List Char)
  | '.' :: r =>
    let ds := r.takeWhile Char.isDigit
    if ds.isEmpty then none
    else some ((digitsToNat ds : ℚ) / (10 : ℚ) ^ ds.length,
      r.dropWhile Char.isDigit)
  | cs => some (0, cs)

/-- JSON exponent part (empty allowed, returning 0). -/
def parseExp : List Char → Option (ℤ × List Char)
  | [] => some (0, [])
  | c :: r =>
    if c = 'e' || c = 'E' then
      let sr : ℤ × List Char :=
        match r with
        | '-' :: r2 => (-1, r2)
        | '+' :: r2 => (1, r2)
        | _ => (1, r)
      let ds := sr.2.takeWhile Char.isDigit
      if ds.isEmpty then none
      else some (sr.1 * (digitsToNat ds : ℤ), sr.2.dropWhile Char.isDigit)
    else some (0, c :: r)

/-- JSON number. -/
def parseNumber (cs : List Char) : Option (ℚ × List Char) := do
  let nr : Bool × List Char :=
    match cs with
    | '-' :: r => (true, r)
    | _ => (false, cs)
  let (ip, cs2) ← parseIntPart nr.2
  let (fv, cs3) ← parseFrac cs2
  let (ev, cs4) ← parseExp cs3
  let mag : ℚ := ((ip : ℚ) + fv) * (10 : ℚ) ^ ev
  some (if nr.1 then -mag else mag, cs4)

/-- Hexadecimal digit value. -/
def hexVal (c : Char) : Option ℕ :=
  if c.isDigit then some (c.toNat - 48)
  else if 'a' ≤ c && c ≤ 'f' then some (c.toNat - 87)
  else if 'A' ≤ c && c ≤ 'F' then some (c.toNat - 55)
  else none

/-- Body of a JSON string after the opening quote; fuel bounds the length. -/
def parseStrBody : ℕ → List Char → Option (List Char × List Char)
  | 0, _ => none
  | _, [] => none
  | fuel + 1, c :: rest =>
    if c = '"' then some ([], rest)
    else if c = '\\' then
      match rest with
      | [] => none
      | e :: rest2 =>
        let esc : Option (Char × List Char) :=
          if e = '"' then some ('"', rest2)
          else if e = '\\' then some ('\\', rest2)
          else if e = '/' then some ('/', rest2)
          else if e = 'b' then some ('\x08', rest2)
          else if e = 'f' then some ('\x0c', rest2)
          else if e = 'n' then some ('\n', rest2)
          else if e = 'r' then some ('\r', rest2)
          else if e = 't' then some ('\t', rest2)
          else if e = 'u' then
            match rest2 with
            | h1 :: h2 :: h3 :: h4 :: rest3 => do
              let v1 ← hexVal h1
              let v2 ← hexVal h2
              let v3 ← hexVal h3
              let v4 ← hexVal h4
              some (Char.ofNat (((v1 * 16 + v2) * 16 + v3) * 16 + v4), rest3)
            | _ => none
          else none
        match esc with
        | none => none
        | some (ch, r) =>
          (parseStrBody fuel r).map (fun p => (ch :: p.1, p.2))
    else if c.toNat < 32 then none
    else (parseStrBody fuel rest).map (fun p => (c :: p.1, p.2))

mutual

/-- JSON value (fuel bounds nesting and item count). -/
def parseVal : ℕ → List Char → Option (Json × List Char)
  | 0, _ => none
  | f + 1, cs =>
    match skipWs cs with
    | [] => none
    | c :: r =>
      if c = 't' then
        if "rue".toList.isPrefixOf r then some (.bool true, r.drop 3) else none
      else if c = 'f' then
        if "alse".toList.isPrefixOf r then some (.bool false, r.drop 4) else none
      else if c = 'n' then
        if "ull".toList.isPrefixOf r then some (.null, r.drop 3) else none
      else if c = '"' then
        (parseStrBody (r.length + 1) r).map (fun p => (.str ⟨p.1⟩, p.2))
      else if c = '[' then
        match skipWs r with
        | ']' :: r2 => some (.arr [], r2)
        | r2 => (parseItems f r2).map (fun p => (.arr p.1, p.2))
      else if c = '{' then
        match skipWs r with
        | '}' :: r2 => some (.obj [], r2)
        | r2 => (parseMembers f r2).map (fun p => (.obj p.1, p.2))
      else
        (parseNumber (c :: r)).map (fun p => (.num p.1, p.2))

/-- Non-empty JSON array items. -/
def parseItems : ℕ → List Char → Option (List Json × List Char)
  | 0, _ => none
  | f + 1, cs => do
    let (v, rest) ← parseVal f cs
    match skipWs rest with
    | ',' :: r2 => (parseItems f r2).map (fun p => (v :: p.1, p.2))
    | ']' :: r2 => some ([v], r2)
    | _ => none

/-- Non-empty JSON object members. -/
def parseMembers : ℕ → List Char → Option (List (String × Json) × List Char)
  | 0, _ => none
  | f + 1, cs =>
    match skipWs cs with
    | '"' :: r => do
      let (ks, r2) ← parseStrBody (r.length + 1) r
      match skipWs r2 with
      | ':' :: r3 => do
        let (v, r4) ← parseVal f r3
        match skipWs r4 with
        | ',' :: r5 => (parseMembers f r5).map (fun p => ((⟨ks⟩, v) :: p.1, p.2))
        | '}' :: r5 => some ([(⟨ks⟩, v)], r5)
        | _ => none
      | _ => none
    | _ => none

end

/-- Model of `json.loads`: parse one value, then require only whitespace to
remain. -/
def json_loads (s : String) : Except String Json :=
  match parseVal (s.length + 1) s.toList with
  | some (v, rest) => if (skipWs rest).isEmpty then .ok v else .error "Extra data"
  | none => .error "Expecting value"

/-- `ResponseParser.parse_room_data`: `json.loads`, array check, and the
`JSONDecodeError`-to-`ValueError` wrapping (the array-check `ValueError` is
not caught by the `except json.JSONDecodeError` clause). -/
def parse_room_data (json_str : String) : Except String (List Json) :=
  match json_loads json_str with
  | .ok (.arr xs) => .ok xs
  | .ok _ => .error "Expected JSON array, got other type"
  | .error e => .error ("Invalid JSON: " ++ e)

/-- `ResponseParser.sanitize_response`: extract then parse. -/
def sanitize_response (response_text : String) : Except String (List Json) :=
  parse_room_data (extract_json_from_response response_text)

/-! ## Detection orchestrator (detect_rooms.py) -/

/-- Result envelope of `DetectRoomsUseCase.execute`. -/
structure Envelope where
  success : Bool
  rooms : List RawRoom
  processing_time : ℚ
  error : Option String

/-- Body of the `try` block of `execute`: the five stages in sequence, each
modelled as a function that may raise.  (In the repository the prompt
selection is total and the parse/validate stages are the concrete
`sanitize_response`/`validate_rooms`; the envelope contract holds for any
collaborators, which the use case receives by injection.) -/
def run_pipeline {Img : Type} (preprocess : Img → Except String Img)
    (get_prompt : String → Bool → Except String String)
    (invoke_model : Img → String → Except String String)
    (sanitize : String → Except String (List RawRoom))
    (validate : List RawRoom → Except String (List RawRoom))
    (image : Img) (complexity : String) (has_small_text : Bool) :
    Except String (List RawRoom) := do
  let processed ← preprocess image
  let prompt ← get_prompt complexity has_small_text
  let response_text ← invoke_model processed prompt
  let rooms_data ← sanitize response_text
  validate rooms_data

/-- `DetectRoomsUseCase.execute`: the `try`/`except Exception` envelope.
Wall-clock reads are modelled by the call-start and return-point times
`t_start`/`t_end`; both the success and the failure path report
`t_end - t_start`, mirroring the two `time.time() - start_time`
computations. -/
def execute {Img : Type} (preprocess : Img → Except String Img)
    (get_prompt : String → Bool → Except String String)
    (invoke_model : Img → String → Except String String)
    (sanitize : String → Except String (List RawRoom))
    (validate : List RawRoom → Except String (List RawRoom))
    (image : Img) (complexity : String) (has_small_text : Bool)
    (t_start t_end : ℚ) : Envelope :=
  match run_pipeline preprocess get_prompt invoke_model sanitize validate
      image complexity has_small_text with
  | .ok valid_rooms =>
    { success := true, rooms := valid_rooms,
      processing_time := t_end - t_start, error := none }
  | .error e =>
    { success := false, rooms := [],
      processing_time := t_end - t_start, error := some e }

/-- Substring relation on strings (used to state which names an error
message mentions). -/
def strContains (hay needle : String) : Prop :=
  needle.toList <:+: hay.toList

instance (hay needle : String) : Decidable (strContains hay needle) :=
  List.decidableInfix needle.toList hay.toList

end RoomVision

namespace RoomVision

/-! ## Lemmas about box construction -/

theorem mkBoundingBox_ok {a b c d : ℚ} (h1 : 0 ≤ a) (h2 : a ≤ 1000) (h3 : 0 ≤ b)
    (h4 : b ≤ 1000) (h5 : 0 ≤ c) (h6 : c ≤ 1000) (h7 : 0 ≤ d) (h8 : d ≤ 1000)
    (h9 : a < c) (h10 : b < d) : mkBoundingBox a b c d = .ok ⟨a, b, c, d⟩ := by
  have h9' : ¬ c ≤ a := not_le.mpr h9
  have h10' : ¬ d ≤ b := not_le.mpr h10
  simp [mkBoundingBox, h1, h2, h3, h4, h5, h6, h7, h8, h9', h10']

theorem validBoxB_elim {l : List ℚ} (h : validBoxB l = true) :
    ∃ a b c d, l = [a, b, c, d] ∧ 0 ≤ a ∧ a ≤ 1000 ∧ 0 ≤ b ∧ b ≤ 1000 ∧
      0 ≤ c ∧ c ≤ 1000 ∧ 0 ≤ d ∧ d ≤ 1000 ∧ a < c ∧ b < d := by
  match l, h with
  | [a, b, c, d], h =>
    simp only [validBoxB, decide_eq_true_eq] at h
    obtain ⟨⟨ha1, ha2⟩, ⟨hb1, hb2⟩, ⟨hc1, hc2⟩, ⟨hd1, hd2⟩, hac, hbd⟩ := h
    exact ⟨a, b, c, d, rfl, ha1, ha2, hb1, hb2, hc1, hc2, hd1, hd2, hac, hbd⟩
  | [], h => simp [validBoxB] at h
  | [_], h => simp [validBoxB] at h
  | [_, _], h => simp [validBoxB] at h
  | [_, _, _], h => simp [validBoxB] at h
  | _ :: _ :: _ :: _ :: _ :: _, h => simp [validBoxB] at h

theorem from_list_ok_of {a b c d : ℚ} (h : validBoxB [a, b, c, d] = true) :
    BoundingBox.from_list [a, b, c, d] = .ok ⟨a, b, c, d⟩ := by
  obtain ⟨a', b', c', d', heq, hs⟩ := validBoxB_elim h
  obtain ⟨rfl, rfl, rfl, rfl⟩ : a = a' ∧ b = b' ∧ c = c' ∧ d = d' := by
    injection heq with e1 r1; injection r1 with e2 r2; injection r2 with e3 r3
    injection r3 with e4 _
    exact ⟨e1, e2, e3, e4⟩
  obtain ⟨h1, h2, h3, h4, h5, h6, h7, h8, h9, h10⟩ := hs
  show mkBoundingBox a b c d = .ok ⟨a, b, c, d⟩
  exact mkBoundingBox_ok h1 h2 h3 h4 h5 h6 h7 h8 h9 h10

theorem calculate_iou_ok_of {A B : List ℚ} {p t : BoundingBox}
    (hp : BoundingBox.from_list A = .ok p) (ht : BoundingBox.from_list B = .ok t) :
    calculate_iou A B = .ok (iouValue p t) := by
  unfold calculate_iou
  rw [hp, ht]
  rfl

/-! ## Pure IoU lemmas -/

theorem iouValue_symm (p t : BoundingBox) : iouValue p t = iouValue t p := by
  unfold iouValue
  rw [max_comm p.x_min t.x_min, max_comm p.y_min t.y_min,
    min_comm p.x_max t.x_max, min_comm p.y_max t.y_max,
    add_comm p.area t.area]

theorem iouValue_self {p : BoundingBox} (hx : p.x_min < p.x_max)
    (hy : p.y_min < p.y_max) : iouValue p p = 1 := by
  have harea : 0 < p.area :=
    mul_pos (sub_pos.mpr hx) (sub_pos.mpr hy)
  have hcond : ¬(min p.x_max p.x_max ≤ max p.x_min p.x_min ∨
      min p.y_max p.y_max ≤ max p.y_min p.y_min) := by
    simp only [min_self, max_self, not_or, not_le]
    exact ⟨hx, hy⟩
  unfold iouValue
  rw [if_neg hcond]
  simp only [min_self, max_self]
  have hinter : (p.x_max - p.x_min) * (p.y_max - p.y_min) = p.area := rfl
  rw [hinter]
  have hunion : p.area + p.area - p.area = p.area := by ring
  rw [hunion, if_neg (ne_of_gt harea), div_self (ne_of_gt harea)]

theorem iouValue_disjoint {p t : BoundingBox}
    (h : p.x_max ≤ t.x_min ∨ t.x_max ≤ p.x_min ∨ p.y_max ≤ t.y_min ∨
      t.y_max ≤ p.y_min) : iouValue p t = 0 := by
  unfold iouValue
  rw [if_pos]
  rcases h with h | h | h | h
  · exact Or.inl (le_trans (min_le_left _ _) (le_trans h (le_max_right _ _)))
  · exact Or.inl (le_trans (min_le_right _ _) (le_trans h (le_max_left _ _)))
  · exact Or.inr (le_trans (min_le_left _ _) (le_trans h (le_max_right _ _)))
  · exact Or.inr (le_trans (min_le_right _ _) (le_trans h (le_max_left _ _)))


/-- C1: for every pair of valid bounding boxes, `calculate_iou` is
symmetric, scores a box against itself as exactly 1, and scores
non-overlapping boxes (edge- or corner-touching included) as exactly 0. -/
theorem C1_iou_algebra (A B : List ℚ) (hA : validBoxB A = true)
    (hB : validBoxB B = true) :
    calculate_iou A B = calculate_iou B A ∧
    calculate_iou A A = .ok 1 ∧
    (disjointBoxes A B = true → calculate_iou A B = .ok 0) := by
  obtain ⟨a1, b1, c1, d1, rfl, h⟩ := validBoxB_elim hA
  obtain ⟨a2, b2, c2, d2, rfl, h'⟩ := validBoxB_elim hB
  obtain ⟨_, _, _, _, _, _, _, _, hac, hbd⟩ := h
  have hpA := from_list_ok_of hA
  have hpB := from_list_ok_of hB
  refine ⟨?_, ?_, ?_⟩
  · rw [calculate_iou_ok_of hpA hpB, calculate_iou_ok_of hpB hpA, iouValue_symm]
  · rw [calculate_iou_ok_of hpA hpA, iouValue_self hac hbd]
  · intro hd
    rw [calculate_iou_ok_of hpA hpB]
    have hz : iouValue ⟨a1, b1, c1, d1⟩ ⟨a2, b2, c2, d2⟩ = 0 := by
      apply iouValue_disjoint
      simp only [disjointBoxes, decide_eq_true_eq] at hd
      exact hd
    rw [hz]

/-- Witness for C1 at concrete boxes (overlapping, identical, and
corner-touching pairs). -/
theorem C1_iou_algebra_witness :
    calculate_iou [0, 0, 200, 200] [100, 100, 300, 300] =
      calculate_iou [100, 100, 300, 300] [0, 0, 200, 200] ∧
    calculate_iou [0, 0, 200, 200] [0, 0, 200, 200] = .ok 1 ∧
    calculate_iou [0, 0, 100, 100] [100, 100, 200, 200] = .ok 0 := by
  refine ⟨(C1_iou_algebra [0, 0, 200, 200] [100, 100, 300, 300] (by decide)
      (by decide)).1,
    (C1_iou_algebra [0, 0, 200, 200] [100, 100, 300, 300] (by decide)
      (by decide)).2.1, ?_⟩
  exact (C1_iou_algebra [0, 0, 100, 100] [100, 100, 200, 200] (by decide)
    (by decide)).2.2 (by decide)


/-! ## Matching: relating `find_best` to the specification-side argmax -/

theorem calculate_iou_eq_iouL {A B : List ℚ} (hA : validBoxB A = true)
    (hB : validBoxB B = true) : calculate_iou A B = .ok (iouL A B) := by
  obtain ⟨a1, b1, c1, d1, rfl, -⟩ := validBoxB_elim hA
  obtain ⟨a2, b2, c2, d2, rfl, -⟩ := validBoxB_elim hB
  have h := calculate_iou_ok_of (from_list_ok_of hA) (from_list_ok_of hB)
  rw [h]
  unfold iouL
  rw [h]
  rfl

theorem cand_list_cons_used {pbb : List ℚ} {thr : ℚ} {q : ℚ → ℚ → Bool}
    {idx : ℕ} {gt : RoomRec} {rest : List (ℕ × RoomRec)} {used : List ℕ}
    (h : idx ∈ used) :
    cand_list pbb thr q ((idx, gt) :: rest) used =
      cand_list pbb thr q rest used := by
  simp [cand_list, h]

theorem cand_list_cons_qual {pbb : List ℚ} {thr : ℚ} {q : ℚ → ℚ → Bool}
    {idx : ℕ} {gt : RoomRec} {rest : List (ℕ × RoomRec)} {used : List ℕ}
    (h : idx ∉ used) (hq : q thr (iouL pbb gt.bounding_box) = true) :
    cand_list pbb thr q ((idx, gt) :: rest) used =
      (idx, gt, iouL pbb gt.bounding_box) :: cand_list pbb thr q rest used := by
  simp [cand_list, h, hq]

theorem cand_list_cons_nqual {pbb : List ℚ} {thr : ℚ} {q : ℚ → ℚ → Bool}
    {idx : ℕ} {gt : RoomRec} {rest : List (ℕ × RoomRec)} {used : List ℕ}
    (h : idx ∉ used) (hq : q thr (iouL pbb gt.bounding_box) = false) :
    cand_list pbb thr q ((idx, gt) :: rest) used =
      cand_list pbb thr q rest used := by
  simp [cand_list, h, hq]

theorem first_argmax_none_nil {l : List (ℕ × RoomRec × ℚ)}
    (h : first_argmax l = none) : l = [] := by
  cases l with
  | nil => rfl
  | cons t ts =>
    rw [first_argmax] at h
    cases harg : first_argmax ts with
    | none =>
      rw [harg] at h
      exact Option.noConfusion h
    | some u =>
      simp only [harg] at h
      by_cases hlt : t.2.2 < u.2.2 <;> simp [hlt] at h

theorem first_argmax_le {l : List (ℕ × RoomRec × ℚ)} {u : ℕ × RoomRec × ℚ}
    (h : first_argmax l = some u) : ∀ x ∈ l, x.2.2 ≤ u.2.2 := by
  induction l generalizing u with
  | nil => simp [first_argmax] at h
  | cons t ts ih =>
    intro x hx
    rw [first_argmax] at h
    cases harg : first_argmax ts with
    | none =>
      simp only [harg, Option.some.injEq] at h
      subst h
      rcases List.mem_cons.mp hx with rfl | hx'
      · exact le_refl _
      · rw [first_argmax_none_nil harg] at hx'
        simp at hx'
    | some u' =>
      simp only [harg] at h
      by_cases hlt : t.2.2 < u'.2.2
      · rw [if_pos hlt] at h
        simp only [Option.some.injEq] at h
        subst h
        rcases List.mem_cons.mp hx with rfl | hx'
        · exact le_of_lt hlt
        · exact ih harg x hx'
      · rw [if_neg hlt] at h
        simp only [Option.some.injEq] at h
        subst h
        rcases List.mem_cons.mp hx with rfl | hx'
        · exact le_refl _
        · exact le_trans (ih harg x hx') (not_lt.mp hlt)


theorem first_argmax_filter_pos (v : ℚ) (l : List (ℕ × RoomRec × ℚ)) :
    first_argmax (l.filter (fun t => decide (v < t.2.2))) =
      match first_argmax l with
      | some u => if v < u.2.2 then some u else none
      | none => none := by
  induction l with
  | nil => simp [first_argmax]
  | cons t ts ih =>
    cases harg : first_argmax ts with
    | none =>
      have hnil := first_argmax_none_nil harg
      subst hnil
      by_cases hvt : v < t.2.2 <;>
        simp [List.filter_cons, first_argmax, hvt]
    | some u =>
      by_cases hvu : v < u.2.2
      · by_cases hvt : v < t.2.2
        · by_cases htu : t.2.2 < u.2.2 <;>
            simp [List.filter_cons, first_argmax, hvt, harg, ih, hvu, htu]
        · have htu : t.2.2 < u.2.2 := lt_of_le_of_lt (not_lt.mp hvt) hvu
          simp [List.filter_cons, first_argmax, hvt, harg, ih, hvu, htu]
      · by_cases hvt : v < t.2.2
        · have htu : ¬ t.2.2 < u.2.2 := fun hc => hvu (lt_trans hvt hc)
          simp [List.filter_cons, first_argmax, hvt, harg, ih, hvu, htu]
        · by_cases htu : t.2.2 < u.2.2 <;>
            simp [List.filter_cons, first_argmax, hvt, harg, ih, hvu, htu]

theorem filter_and_eq (p q : α → Bool) (l : List α) :
    l.filter (fun a => p a && q a) = (l.filter p).filter q := by
  induction l with
  | nil => rfl
  | cons x xs ih =>
    by_cases hp : p x <;> by_cases hq : q x <;>
      simp [List.filter_cons, hp, hq, ih]

theorem cand_actual_eq_filter (pbb : List ℚ) (thr : ℚ)
    (gts_e : List (ℕ × RoomRec)) (used : List ℕ) :
    cand_list pbb thr qualifies_actual gts_e used =
      (cand_list pbb thr qualifies_claimed gts_e used).filter
        (fun t => decide (0 < t.2.2)) := by
  unfold cand_list
  rw [show (fun t : ℕ × RoomRec × ℚ => qualifies_actual thr t.2.2) =
      (fun t : ℕ × RoomRec × ℚ =>
        qualifies_claimed thr t.2.2 && decide (0 < t.2.2)) from rfl]
  exact filter_and_eq _ _ _


theorem find_best_spec {pbb : List ℚ} (hv : validBoxB pbb = true) (thr : ℚ) :
    ∀ (L : List (ℕ × RoomRec)) (used : List ℕ) (bi : ℚ) (bm : Option (RoomRec × ℕ)),
    (∀ p ∈ L, validBoxB p.2.bounding_box = true) →
    find_best pbb thr L used bi bm = .ok
      (match first_argmax (cand_list pbb thr qualifies_claimed L used) with
       | some u => if bi < u.2.2 then (u.2.2, some (u.2.1, u.1)) else (bi, bm)
       | none => (bi, bm)) := by
  intro L
  induction L with
  | nil =>
    intro used bi bm _
    simp [find_best, cand_list, first_argmax]
  | cons hd rest ih =>
    intro used bi bm hval
    obtain ⟨idx, gt⟩ := hd
    have hgt : validBoxB gt.bounding_box = true :=
      hval (idx, gt) (List.mem_cons_self _ _)
    have hrest : ∀ p ∈ rest, validBoxB p.2.bounding_box = true :=
      fun p hp => hval p (List.mem_cons_of_mem _ hp)
    by_cases hu : idx ∈ used
    · have hfb : find_best pbb thr ((idx, gt) :: rest) used bi bm =
          find_best pbb thr rest used bi bm := by
        simp only [find_best]
        rw [if_pos hu]
      rw [hfb, cand_list_cons_used hu]
      exact ih used bi bm hrest
    · have hiou := calculate_iou_eq_iouL hv hgt
      have hfb : find_best pbb thr ((idx, gt) :: rest) used bi bm =
          (if bi < iouL pbb gt.bounding_box ∧ thr ≤ iouL pbb gt.bounding_box then
            find_best pbb thr rest used (iouL pbb gt.bounding_box) (some (gt, idx))
          else find_best pbb thr rest used bi bm) := by
        simp only [find_best]
        rw [if_neg hu, hiou]
        rfl
      set w := iouL pbb gt.bounding_box with hw
      by_cases hq : thr ≤ w
      · have hql : qualifies_claimed thr (iouL pbb gt.bounding_box) = true := by
          rw [← hw]
          simp [qualifies_claimed, hq]
        have hcand : cand_list pbb thr qualifies_claimed ((idx, gt) :: rest) used =
            (idx, gt, w) :: cand_list pbb thr qualifies_claimed rest used := by
          rw [hw]
          exact cand_list_cons_qual hu hql
        rw [hfb, hcand]
        by_cases hbw : bi < w
        · rw [if_pos ⟨hbw, hq⟩, ih used w (some (gt, idx)) hrest]
          cases harg : first_argmax (cand_list pbb thr qualifies_claimed rest used) with
          | none => simp [first_argmax, harg, hbw]
          | some u =>
            by_cases hwu : w < u.2.2
            · simp [first_argmax, harg, hwu, lt_trans hbw hwu, hbw]
            · simp [first_argmax, harg, hwu, hbw]
        · rw [if_neg (fun hc => hbw hc.1), ih used bi bm hrest]
          cases harg : first_argmax (cand_list pbb thr qualifies_claimed rest used) with
          | none => simp [first_argmax, harg, hbw]
          | some u =>
            by_cases hwu : w < u.2.2
            · simp [first_argmax, harg, hwu]
            · have hnb : ¬ bi < u.2.2 :=
                fun hc => hbw (lt_of_lt_of_le hc (not_lt.mp hwu))
              simp [first_argmax, harg, hwu, hbw, hnb]
      · have hql : qualifies_claimed thr (iouL pbb gt.bounding_box) = false := by
          rw [← hw]
          simp [qualifies_claimed, hq]
        have hcand : cand_list pbb thr qualifies_claimed ((idx, gt) :: rest) used =
            cand_list pbb thr qualifies_claimed rest used :=
          cand_list_cons_nqual hu hql
        rw [hfb, if_neg (fun hc => hq hc.2), hcand]
        exact ih used bi bm hrest


theorem enum_from_mem_snd {n : ℕ} {l : List α} {p : ℕ × α}
    (h : p ∈ enum_from n l) : p.2 ∈ l := by
  induction l generalizing n with
  | nil => simp [enum_from] at h
  | cons a as ih =>
    rw [enum_from] at h
    rcases List.mem_cons.mp h with heq | h'
    · rw [heq]
      exact List.mem_cons_self _ _
    · exact List.mem_cons_of_mem _ (ih h')

theorem enum_from_get {n : ℕ} {l : List α} {p : ℕ × α}
    (h : p ∈ enum_from n l) : n ≤ p.1 ∧ l.get? (p.1 - n) = some p.2 := by
  induction l generalizing n with
  | nil => simp [enum_from] at h
  | cons a as ih =>
    rw [enum_from] at h
    rcases List.mem_cons.mp h with heq | h'
    · rw [heq]
      simp
    · obtain ⟨h1, h2⟩ := ih h'
      refine ⟨le_trans (Nat.le_succ n) h1, ?_⟩
      have hs : p.1 - n = (p.1 - (n + 1)) + 1 := by omega
      rw [hs]
      simpa using h2

theorem bind_ok_rv (a : α) (f : α → Except ε β) :
    (Except.ok a : Except ε α) >>= f = f a := rfl

theorem match_go_eq_spec {gts : List RoomRec}
    (hg : ∀ r ∈ gts, validBoxB r.bounding_box = true) (thr : ℚ) :
    ∀ (ps : List RoomRec) (used : List ℕ),
    (∀ r ∈ ps, validBoxB r.bounding_box = true) →
    match_go gts thr ps used =
      .ok (spec_go qualifies_actual (enum_from 0 gts) thr ps used) := by
  intro ps
  induction ps with
  | nil =>
    intro used _
    simp [match_go, spec_go]
  | cons p ps ih =>
    intro used hval
    have hp : validBoxB p.bounding_box = true := hval p (List.mem_cons_self _ _)
    have hps : ∀ r ∈ ps, validBoxB r.bounding_box = true :=
      fun r hr => hval r (List.mem_cons_of_mem _ hr)
    have henum : ∀ q ∈ enum_from 0 gts, validBoxB q.2.bounding_box = true :=
      fun q hq => hg q.2 (enum_from_mem_snd hq)
    have hfb := find_best_spec hp thr (enum_from 0 gts) used 0 none henum
    have hspec : spec_go qualifies_actual (enum_from 0 gts) thr (p :: ps) used =
        (match first_argmax (cand_list p.bounding_box thr qualifies_actual
            (enum_from 0 gts) used) with
         | some u => (p, u.2.1, u.2.2) ::
             spec_go qualifies_actual (enum_from 0 gts) thr ps (u.1 :: used)
         | none => spec_go qualifies_actual (enum_from 0 gts) thr ps used) := by
      simp only [spec_go]
      cases hfa : first_argmax (cand_list p.bounding_box thr qualifies_actual
          (enum_from 0 gts) used) with
      | none => rfl
      | some u =>
        obtain ⟨i, g, v⟩ := u
        rfl
    simp only [match_go]
    rw [hfb, bind_ok_rv]
    rw [hspec, cand_actual_eq_filter, first_argmax_filter_pos]
    cases harg : first_argmax (cand_list p.bounding_box thr qualifies_claimed
        (enum_from 0 gts) used) with
    | none =>
      exact ih used hps
    | some u =>
      dsimp only
      by_cases h0 : 0 < u.2.2
      · rw [if_pos h0, if_pos h0]
        show (match_go gts thr ps (u.1 :: used) >>= fun rest =>
          pure ((p, u.2.1, u.2.2) :: rest)) = _
        rw [ih (u.1 :: used) hps, bind_ok_rv]
        rfl
      · rw [if_neg h0, if_neg h0]
        exact ih used hps


/-- C2 (amended): on valid boxes, `match_rooms` processes predictions in
input order, pairing each with the not-yet-used ground-truth room of
highest *strictly positive* IoU at or above the threshold, first in
iteration order on ties; a prediction with no such room yields no match.
(The amendment: an IoU of exactly 0 never matches, even when the threshold
is 0 or negative, because the running best starts at 0 and must be strictly
exceeded.) -/
theorem C2_match_rooms_greedy (preds gts : List RoomRec) (thr : ℚ)
    (hp : ∀ r ∈ preds, validBoxB r.bounding_box = true)
    (hg : ∀ r ∈ gts, validBoxB r.bounding_box = true) :
    match_rooms preds gts thr =
      .ok (match_rooms_spec qualifies_actual preds gts thr) :=
  match_go_eq_spec hg thr preds [] hp

/-- Witness for C2 at a concrete matching instance. -/
theorem C2_match_rooms_greedy_witness :
    match_rooms [⟨"p1", [0, 0, 100, 100]⟩]
        [⟨"g1", [50, 0, 150, 100]⟩, ⟨"g2", [0, 0, 100, 100]⟩] (1/2) =
      .ok (match_rooms_spec qualifies_actual [⟨"p1", [0, 0, 100, 100]⟩]
        [⟨"g1", [50, 0, 150, 100]⟩, ⟨"g2", [0, 0, 100, 100]⟩] (1/2)) :=
  C2_match_rooms_greedy _ _ _ (by decide) (by decide)

/-- Counterexample to C2 as stated: with threshold 0 and disjoint boxes the
IoU is exactly 0, which is "at or above the threshold", so the claimed
reading records a match — but `match_rooms` records none. -/
theorem C2_counterexample :
    match_rooms [⟨"p1", [0, 0, 100, 100]⟩] [⟨"g1", [100, 100, 200, 200]⟩] 0 =
      .ok [] ∧
    match_rooms_spec qualifies_claimed [⟨"p1", [0, 0, 100, 100]⟩]
        [⟨"g1", [100, 100, 200, 200]⟩] 0 =
      [(⟨"p1", [0, 0, 100, 100]⟩, ⟨"g1", [100, 100, 200, 200]⟩, 0)] := by
  constructor
  · with_unfolding_all rfl
  · with_unfolding_all rfl


/-! ## Matching invariants (C4) -/

theorem find_best_best_mem {pbb : List ℚ} {thr : ℚ} :
    ∀ {L : List (ℕ × RoomRec)} {used : List ℕ} {bi v : ℚ}
      {bm res : Option (RoomRec × ℕ)},
    find_best pbb thr L used bi bm = .ok (v, res) →
    res = bm ∨ ∃ g i, res = some (g, i) ∧ (i, g) ∈ L ∧ i ∉ used := by
  intro L
  induction L with
  | nil =>
    intro used bi v bm res h
    simp only [find_best, Except.ok.injEq, Prod.mk.injEq] at h
    exact Or.inl h.2.symm
  | cons hd rest ih =>
    intro used bi v bm res h
    obtain ⟨idx, gt⟩ := hd
    by_cases hu : idx ∈ used
    · rw [find_best, if_pos hu] at h
      rcases ih h with h' | ⟨g, i, hres, hmem, hni⟩
      · exact Or.inl h'
      · exact Or.inr ⟨g, i, hres, List.mem_cons_of_mem _ hmem, hni⟩
    · rw [find_best, if_neg hu] at h
      cases hio : calculate_iou pbb gt.bounding_box with
      | error e =>
        rw [hio] at h
        exact Except.noConfusion h
      | ok w =>
        rw [hio] at h
        by_cases hc : bi < w ∧ thr ≤ w
        · rw [show ((Except.ok w : Except String ℚ) >>= fun iou =>
              if bi < iou ∧ thr ≤ iou then
                find_best pbb thr rest used iou (some (gt, idx))
              else find_best pbb thr rest used bi bm) =
              find_best pbb thr rest used w (some (gt, idx)) from by
            rw [bind_ok_rv, if_pos hc]] at h
          rcases ih h with h' | ⟨g, i, hres, hmem, hni⟩
          · exact Or.inr ⟨gt, idx, h', List.mem_cons_self _ _, hu⟩
          · exact Or.inr ⟨g, i, hres, List.mem_cons_of_mem _ hmem, hni⟩
        · rw [show ((Except.ok w : Except String ℚ) >>= fun iou =>
              if bi < iou ∧ thr ≤ iou then
                find_best pbb thr rest used iou (some (gt, idx))
              else find_best pbb thr rest used bi bm) =
              find_best pbb thr rest used bi bm from by
            rw [bind_ok_rv, if_neg hc]] at h
          rcases ih h with h' | ⟨g, i, hres, hmem, hni⟩
          · exact Or.inl h'
          · exact Or.inr ⟨g, i, hres, List.mem_cons_of_mem _ hmem, hni⟩

theorem match_go_inv {gts : List RoomRec} {thr : ℚ} :
    ∀ (ps : List RoomRec) (used : List ℕ) (ms : List (RoomRec × RoomRec × ℚ)),
    match_go gts thr ps used = .ok ms →
    ms.length ≤ ps.length ∧
    ∃ idxs : List ℕ, idxs.Nodup ∧ (∀ i ∈ idxs, i ∉ used ∧ i < gts.length) ∧
      List.Forall₂ (fun (m : RoomRec × RoomRec × ℚ) (i : ℕ) =>
        gts.get? i = some m.2.1) ms idxs := by
  intro ps
  induction ps with
  | nil =>
    intro used ms h
    simp only [match_go, Except.ok.injEq] at h
    subst h
    exact ⟨le_refl _, [], List.nodup_nil, by simp, List.Forall₂.nil⟩
  | cons p ps ih =>
    intro used ms h
    simp only [match_go] at h
    cases hfbv : find_best p.bounding_box thr (enum_from 0 gts) used 0 none with
    | error e =>
      rw [hfbv] at h
      exact Except.noConfusion h
    | ok r =>
      rw [hfbv, bind_ok_rv] at h
      obtain ⟨v, res⟩ := r
      cases res with
      | none =>
        obtain ⟨hlen, idxs, hnd, hb, hf⟩ := ih used ms h
        exact ⟨le_trans hlen (Nat.le_succ _), idxs, hnd, hb, hf⟩
      | some gi =>
        obtain ⟨g, idx⟩ := gi
        rcases find_best_best_mem hfbv with hres | ⟨g', i', hres, hmem, hni⟩
        · exact Option.noConfusion hres
        · have heq := hres.symm
          simp only [Option.some.injEq, Prod.mk.injEq] at heq
          rw [heq.1, heq.2] at hmem
          rw [heq.2] at hni
          dsimp only at h
          cases hmg : match_go gts thr ps (idx :: used) with
          | error e =>
            rw [hmg] at h
            exact Except.noConfusion h
          | ok rest =>
            rw [hmg] at h
            have hms : ms = (p, g, v) :: rest := by
              have : Except.ok ((p, g, v) :: rest) = (Except.ok ms : Except String _) := h
              simpa using this.symm
            subst hms
            obtain ⟨hlen, idxs, hnd, hb, hf⟩ := ih (idx :: used) rest hmg
            have hidx := enum_from_get hmem
            have hget : gts.get? idx = some g := by simpa using hidx.2
            have hilt : idx < gts.length := by
              rcases List.get?_eq_some.mp hget with ⟨hlt, -⟩
              exact hlt
            refine ⟨Nat.succ_le_succ hlen, idx :: idxs, ?_, ?_, ?_⟩
            · refine List.nodup_cons.mpr ⟨fun hc => ?_, hnd⟩
              exact (hb idx hc).1 (List.mem_cons_self _ _)
            · intro i hi
              rcases List.mem_cons.mp hi with rfl | hi'
              · exact ⟨hni, hilt⟩
              · exact ⟨fun hc => (hb i hi').1 (List.mem_cons_of_mem _ hc),
                  (hb i hi').2⟩
            · exact List.Forall₂.cons hget hf

/-- C4: `match_rooms` never matches the same ground-truth entry twice (the
matched ground-truth rooms come from pairwise distinct positions of the
ground-truth list), and the number of matches is at most
`min (number of predictions) (number of ground-truth rooms)`. -/
theorem C4_match_invariants (preds gts : List RoomRec) (thr : ℚ)
    (ms : List (RoomRec × RoomRec × ℚ)) (h : match_rooms preds gts thr = .ok ms) :
    ms.length ≤ min preds.length gts.length ∧
    ∃ idxs : List ℕ, idxs.Nodup ∧
      List.Forall₂ (fun (m : RoomRec × RoomRec × ℚ) (i : ℕ) =>
        gts.get? i = some m.2.1) ms idxs := by
  obtain ⟨hlen, idxs, hnd, hbound, hf⟩ := match_go_inv preds [] ms h
  have hlen2 : idxs.length = ms.length := (List.Forall₂.length_eq hf).symm
  have hsub : idxs.toFinset ⊆ Finset.range gts.length := fun i hi =>
    Finset.mem_range.mpr (hbound i (List.mem_toFinset.mp hi)).2
  have hcard : idxs.length ≤ gts.length := by
    calc idxs.length = idxs.toFinset.card := (List.toFinset_card_of_nodup hnd).symm
    _ ≤ (Finset.range gts.length).card := Finset.card_le_card hsub
    _ = gts.length := Finset.card_range _
  exact ⟨le_min hlen (by omega), idxs, hnd, hf⟩

/-- Witness for C4 at a concrete matching instance. -/
theorem C4_match_invariants_witness :
    ([(⟨"p1", [0, 0, 100, 100]⟩, ⟨"g1", [0, 0, 100, 100]⟩, (1 : ℚ))] :
        List (RoomRec × RoomRec × ℚ)).length ≤
      min ([⟨"p1", [0, 0, 100, 100]⟩] : List RoomRec).length
        ([⟨"g1", [0, 0, 100, 100]⟩] : List RoomRec).length ∧
    ∃ idxs : List ℕ, idxs.Nodup ∧
      List.Forall₂ (fun (m : RoomRec × RoomRec × ℚ) (i : ℕ) =>
        ([⟨"g1", [0, 0, 100, 100]⟩] : List RoomRec).get? i = some m.2.1)
        [(⟨"p1", [0, 0, 100, 100]⟩, ⟨"g1", [0, 0, 100, 100]⟩, (1 : ℚ))] idxs :=
  C4_match_invariants [⟨"p1", [0, 0, 100, 100]⟩] [⟨"g1", [0, 0, 100, 100]⟩]
    (1/2) [(⟨"p1", [0, 0, 100, 100]⟩, ⟨"g1", [0, 0, 100, 100]⟩, 1)]
    (by with_unfolding_all rfl)


/-! ## Metrics (C3) -/

/-- C3: `calculate_metrics` returns the guarded ratios of the source, with
`M` the number of matches returned by `match_rooms` at the default
threshold `0.5`: precision `M/P` (0 when `P = 0`), detection rate = recall
`M/G` (0 when `G = 0`), false positives `P - M`, false negatives `G - M`,
F1 `2pr/(p+r)` (0 when the sum is 0), and average IoU the mean of the
matched IoUs (0 with no matches); no division error is possible. -/
theorem C3_metrics (preds gts : List RoomRec) (ms : List (RoomRec × RoomRec × ℚ))
    (h : match_rooms preds gts (1/2) = .ok ms) :
    ∃ m : Metrics, calculate_metrics preds gts = .ok m ∧
      m.precision = (if preds = [] then 0 else (ms.length : ℚ) / (preds.length : ℚ)) ∧
      m.detection_rate = (if gts = [] then 0 else (ms.length : ℚ) / (gts.length : ℚ)) ∧
      m.recall_metric = m.detection_rate ∧
      m.false_positives = (preds.length : ℤ) - (ms.length : ℤ) ∧
      m.false_negatives = (gts.length : ℤ) - (ms.length : ℤ) ∧
      (m.precision + m.recall_metric = 0 → m.f1_score = 0) ∧
      (m.precision + m.recall_metric ≠ 0 →
        m.f1_score = 2 * (m.precision * m.recall_metric) /
          (m.precision + m.recall_metric)) ∧
      m.average_iou = (if ms = [] then 0
        else (ms.map (fun x => x.2.2)).sum / (ms.length : ℚ)) ∧
      m.matched = (ms.length : ℤ) := by
  have hcm : calculate_metrics preds gts =
      (match_rooms preds gts (1/2) >>= fun msv =>
        pure
          { total_ground_truth := (gts.length : ℤ)
            total_detected := (preds.length : ℤ)
            matched := (msv.length : ℤ)
            false_positives := (preds.length : ℤ) - (msv.length : ℤ)
            false_negatives := (gts.length : ℤ) - (msv.length : ℤ)
            average_iou := if (msv.map (fun x => x.2.2)).isEmpty then 0
              else (msv.map (fun x => x.2.2)).sum /
                ((msv.map (fun x => x.2.2)).length : ℚ)
            detection_rate := if gts.isEmpty then 0
              else (msv.length : ℚ) / (gts.length : ℚ)
            false_positive_rate := if preds.isEmpty then 0
              else (((preds.length : ℤ) - (msv.length : ℤ) : ℤ) : ℚ) /
                (preds.length : ℚ)
            precision := if preds.isEmpty then 0
              else (msv.length : ℚ) / (preds.length : ℚ)
            recall_metric := if gts.isEmpty then 0
              else (msv.length : ℚ) / (gts.length : ℚ)
            f1_score := if 0 < (if preds.isEmpty then 0
                  else (msv.length : ℚ) / (preds.length : ℚ)) +
                (if gts.isEmpty then 0 else (msv.length : ℚ) / (gts.length : ℚ)) then
                2 * ((if preds.isEmpty then 0
                    else (msv.length : ℚ) / (preds.length : ℚ)) *
                  (if gts.isEmpty then 0 else (msv.length : ℚ) / (gts.length : ℚ))) /
                ((if preds.isEmpty then 0
                  else (msv.length : ℚ) / (preds.length : ℚ)) +
                  (if gts.isEmpty then 0 else (msv.length : ℚ) / (gts.length : ℚ)))
              else 0
            ious := msv.map (fun x => x.2.2) } : Except String Metrics) := rfl
  rw [h, bind_ok_rv] at hcm
  set P : ℚ := if preds.isEmpty then 0 else (ms.length : ℚ) / (preds.length : ℚ)
    with hPdef
  set R : ℚ := if gts.isEmpty then 0 else (ms.length : ℚ) / (gts.length : ℚ)
    with hRdef
  have hP0 : 0 ≤ P := by
    rw [hPdef]
    split_ifs
    · exact le_refl 0
    · positivity
  have hR0 : 0 ≤ R := by
    rw [hRdef]
    split_ifs
    · exact le_refl 0
    · positivity
  refine ⟨_, hcm, ?_, ?_, rfl, rfl, rfl, ?_, ?_, ?_, rfl⟩
  · show P = _
    rw [hPdef]
    by_cases hp : preds = [] <;> simp [hp]
  · show R = _
    rw [hRdef]
    by_cases hg : gts = [] <;> simp [hg]
  · intro h0
    show (if 0 < P + R then 2 * (P * R) / (P + R) else 0) = 0
    have : ¬ 0 < P + R := by
      intro hc
      rw [h0] at hc
      exact lt_irrefl 0 hc
    rw [if_neg this]
  · intro hne
    have hlt : 0 < P + R := lt_of_le_of_ne (add_nonneg hP0 hR0) (Ne.symm hne)
    show (if 0 < P + R then 2 * (P * R) / (P + R) else 0) = _
    rw [if_pos hlt]
  · show (if (ms.map (fun x => x.2.2)).isEmpty then 0
        else (ms.map (fun x => x.2.2)).sum / ((ms.map (fun x => x.2.2)).length : ℚ)) = _
    by_cases hm : ms = [] <;> simp [hm]


/-- Witness for C3: three ground-truth rooms and two predictions, each
matching a distinct ground-truth room at IoU 1, plus the empty/empty case. -/
theorem C3_metrics_witness :
    (∃ m : Metrics,
      calculate_metrics
          [⟨"p1", [0, 0, 100, 100]⟩, ⟨"p2", [200, 0, 300, 100]⟩]
          [⟨"g1", [0, 0, 100, 100]⟩, ⟨"g2", [200, 0, 300, 100]⟩,
            ⟨"g3", [400, 0, 500, 100]⟩] = .ok m ∧
      m.detection_rate = 2/3 ∧ m.precision = 1 ∧ m.false_positives = 0 ∧
      m.false_negatives = 1 ∧ m.f1_score = 4/5) ∧
    (∃ m : Metrics, calculate_metrics [] [] = .ok m ∧
      m.precision = 0 ∧ m.recall_metric = 0 ∧ m.f1_score = 0) := by
  constructor
  · obtain ⟨m, hm, h1, h2, h3, h4, h5, h6, h7, h8, h9⟩ :=
      C3_metrics [⟨"p1", [0, 0, 100, 100]⟩, ⟨"p2", [200, 0, 300, 100]⟩]
        [⟨"g1", [0, 0, 100, 100]⟩, ⟨"g2", [200, 0, 300, 100]⟩,
          ⟨"g3", [400, 0, 500, 100]⟩]
        [(⟨"p1", [0, 0, 100, 100]⟩, ⟨"g1", [0, 0, 100, 100]⟩, 1),
          (⟨"p2", [200, 0, 300, 100]⟩, ⟨"g2", [200, 0, 300, 100]⟩, 1)]
        (by with_unfolding_all rfl)
    have hPv : m.precision = 1 := by
      rw [h1]
      norm_num [List.length_cons, List.length_nil]
      simp
    have hRv : m.detection_rate = 2/3 := by
      rw [h2]
      norm_num [List.length_cons, List.length_nil]
      simp
    have hRv2 : m.recall_metric = 2/3 := by
      rw [h3, hRv]
    have hFv : m.f1_score = 4/5 := by
      rw [h7 (by rw [hPv, hRv2]; norm_num), hPv, hRv2]
      norm_num
    refine ⟨m, hm, hRv, hPv, ?_, ?_, hFv⟩
    · rw [h4]
      norm_num [List.length_cons, List.length_nil]
    · rw [h5]
      norm_num [List.length_cons, List.length_nil]
  · obtain ⟨m, hm, h1, h2, h3, h4, h5, h6, h7, h8, h9⟩ :=
      C3_metrics [] [] [] (by with_unfolding_all rfl)
    have hPv : m.precision = 0 := by
      rw [h1]
      norm_num
    have hRv2 : m.recall_metric = 0 := by
      rw [h3, h2]
      norm_num
    exact ⟨m, hm, hPv, hRv2, h6 (by rw [hPv, hRv2]; norm_num)⟩


/-! ## Error propagation through the scoring pipeline (C10) -/

theorem from_list_error_of_invalid {l : List ℚ} (h : validBoxB l = false) :
    ∃ e, BoundingBox.from_list l = .error e := by
  match l with
  | [] => exact ⟨_, rfl⟩
  | [_] => exact ⟨_, rfl⟩
  | [_, _] => exact ⟨_, rfl⟩
  | [_, _, _] => exact ⟨_, rfl⟩
  | _ :: _ :: _ :: _ :: _ :: _ => exact ⟨_, rfl⟩
  | [a, b, c, d] =>
    cases hfl : BoundingBox.from_list [a, b, c, d] with
    | error e => exact ⟨e, rfl⟩
    | ok bb =>
      exfalso
      have hfl' : mkBoundingBox a b c d = .ok bb := hfl
      unfold mkBoundingBox at hfl'
      split_ifs at hfl' with w1 w2 w3 w4 w5 w6
      all_goals first
      | exact Except.noConfusion hfl'
      | (rw [validBoxB] at h
         simp only [decide_eq_false_iff_not] at h
         exact h ⟨w1, w2, w3, w4, not_le.mp w5, not_le.mp w6⟩)

theorem calculate_iou_error_iff (A B : List ℚ) :
    (∃ e, calculate_iou A B = .error e) ↔
      (validBoxB A = false ∨ validBoxB B = false) := by
  constructor
  · rintro ⟨e, he⟩
    by_contra hc
    push_neg at hc
    have hA : validBoxB A = true := by
      cases hA' : validBoxB A
      · exact absurd hA' hc.1
      · rfl
    have hB : validBoxB B = true := by
      cases hB' : validBoxB B
      · exact absurd hB' hc.2
      · rfl
    rw [calculate_iou_eq_iouL hA hB] at he
    exact Except.noConfusion he
  · intro h
    by_cases hA : validBoxB A = true
    · rcases h with h | h
      · rw [hA] at h
        exact Bool.noConfusion h
      · obtain ⟨a1, b1, c1, d1, rfl, -⟩ := validBoxB_elim hA
        have hok := from_list_ok_of hA
        obtain ⟨e, he⟩ := from_list_error_of_invalid h
        refine ⟨e, ?_⟩
        unfold calculate_iou
        rw [hok, bind_ok_rv, he]
        rfl
    · have hA' : validBoxB A = false := by
        cases hA'' : validBoxB A
        · rfl
        · exact absurd hA'' hA
      obtain ⟨e, he⟩ := from_list_error_of_invalid hA'
      refine ⟨e, ?_⟩
      unfold calculate_iou
      rw [he]
      rfl

theorem mem_enum_from_of_mem {l : List α} {a : α} (h : a ∈ l) (n : ℕ) :
    ∃ i, (i, a) ∈ enum_from n l := by
  induction l generalizing n with
  | nil => simp at h
  | cons x xs ih =>
    rcases List.mem_cons.mp h with rfl | h'
    · exact ⟨n, List.mem_cons_self _ _⟩
    · obtain ⟨i, hi⟩ := ih h' (n + 1)
      exact ⟨i, List.mem_cons_of_mem _ hi⟩

theorem find_best_error {pbb : List ℚ} {thr : ℚ} :
    ∀ (L : List (ℕ × RoomRec)) (used : List ℕ) (bi : ℚ)
      (bm : Option (RoomRec × ℕ)),
    (∃ p ∈ L, p.1 ∉ used ∧
      (validBoxB pbb = false ∨ validBoxB p.2.bounding_box = false)) →
    ∃ e, find_best pbb thr L used bi bm = .error e := by
  intro L
  induction L with
  | nil =>
    rintro used bi bm ⟨p, hp, -⟩
    simp at hp
  | cons hd rest ih =>
    rintro used bi bm ⟨p, hp, hnu, hdis⟩
    obtain ⟨idx, gt⟩ := hd
    by_cases hu : idx ∈ used
    · have hrest : ∃ p ∈ rest, p.1 ∉ used ∧
          (validBoxB pbb = false ∨ validBoxB p.2.bounding_box = false) := by
        rcases List.mem_cons.mp hp with rfl | hmem
        · exact absurd hu hnu
        · exact ⟨p, hmem, hnu, hdis⟩
      obtain ⟨e, he⟩ := ih used bi bm hrest
      refine ⟨e, ?_⟩
      rw [find_best, if_pos hu]
      exact he
    · cases hio : calculate_iou pbb gt.bounding_box with
      | error e =>
        refine ⟨e, ?_⟩
        rw [find_best, if_neg hu, hio]
        rfl
      | ok w =>
        have hpbb : validBoxB pbb = true := by
          cases hv : validBoxB pbb
          · exfalso
            obtain ⟨e, he⟩ :=
              (calculate_iou_error_iff pbb gt.bounding_box).mpr (Or.inl hv)
            rw [hio] at he
            exact Except.noConfusion he
          · rfl
        have hrest : ∃ p ∈ rest, p.1 ∉ used ∧
            (validBoxB pbb = false ∨ validBoxB p.2.bounding_box = false) := by
          rcases List.mem_cons.mp hp with rfl | hmem
          · exfalso
            rcases hdis with hbad | hbad
            · rw [hpbb] at hbad
              exact Bool.noConfusion hbad
            · obtain ⟨e, he⟩ :=
                (calculate_iou_error_iff pbb gt.bounding_box).mpr (Or.inr hbad)
              rw [hio] at he
              exact Except.noConfusion he
          · exact ⟨p, hmem, hnu, hdis⟩
        by_cases hc : bi < w ∧ thr ≤ w
        · obtain ⟨e, he⟩ := ih used w (some (gt, idx)) hrest
          refine ⟨e, ?_⟩
          rw [find_best, if_neg hu, hio, bind_ok_rv, if_pos hc]
          exact he
        · obtain ⟨e, he⟩ := ih used bi bm hrest
          refine ⟨e, ?_⟩
          rw [find_best, if_neg hu, hio, bind_ok_rv, if_neg hc]
          exact he

/-- C10 (amended): `calculate_iou` raises exactly when one of its inputs is
an invalid box, and `match_rooms`/`calculate_metrics` propagate that
exception whenever an invalid box is actually examined — in particular
whenever the ground-truth list is non-empty and the first prediction's box
or any ground-truth box is invalid.  (Boxes the loops never reach — with an
empty prediction or ground-truth list, or in predictions processed after
every ground-truth room has been used — escape checking; see the
counterexample.) -/
theorem C10_error_propagation :
    (∀ A B : List ℚ, (∃ e, calculate_iou A B = .error e) ↔
      (validBoxB A = false ∨ validBoxB B = false)) ∧
    (∀ (p : RoomRec) (ps gts : List RoomRec) (thr : ℚ), gts ≠ [] →
      (validBoxB p.bounding_box = false ∨
        ∃ g ∈ gts, validBoxB g.bounding_box = false) →
      ∃ e, match_rooms (p :: ps) gts thr = .error e) ∧
    (∀ (p : RoomRec) (ps gts : List RoomRec), gts ≠ [] →
      (validBoxB p.bounding_box = false ∨
        ∃ g ∈ gts, validBoxB g.bounding_box = false) →
      ∃ e, calculate_metrics (p :: ps) gts = .error e) := by
  have hmain : ∀ (p : RoomRec) (ps gts : List RoomRec) (thr : ℚ), gts ≠ [] →
      (validBoxB p.bounding_box = false ∨
        ∃ g ∈ gts, validBoxB g.bounding_box = false) →
      ∃ e, match_rooms (p :: ps) gts thr = .error e := by
    intro p ps gts thr hne hbad
    have hex : ∃ q ∈ enum_from 0 gts, q.1 ∉ ([] : List ℕ) ∧
        (validBoxB p.bounding_box = false ∨
          validBoxB q.2.bounding_box = false) := by
      rcases hbad with hbad | ⟨g, hg, hbad⟩
      · cases gts with
        | nil => exact absurd rfl hne
        | cons g0 grest =>
          exact ⟨(0, g0), List.mem_cons_self _ _, by simp, Or.inl hbad⟩
      · obtain ⟨i, hi⟩ := mem_enum_from_of_mem hg 0
        exact ⟨(i, g), hi, by simp, Or.inr hbad⟩
    obtain ⟨e, he⟩ := find_best_error (enum_from 0 gts) [] 0 none hex
    refine ⟨e, ?_⟩
    show match_go gts thr (p :: ps) [] = .error e
    simp only [match_go]
    rw [he]
    rfl
  refine ⟨calculate_iou_error_iff, hmain, ?_⟩
  intro p ps gts hne hbad
  obtain ⟨e, he⟩ := hmain p ps gts (1/2) hne hbad
  refine ⟨e, ?_⟩
  unfold calculate_metrics
  rw [he]
  rfl

/-- Witness for C10 at concrete invalid boxes. -/
theorem C10_error_propagation_witness :
    (∃ e, calculate_iou [0, 0, 0, 0] [0, 0, 100, 100] = .error e) ∧
    (∃ e, match_rooms [⟨"p", [0, 0, 100, 100]⟩]
      [⟨"g", [500, 200, 100, 600]⟩] (1/2) = .error e) ∧
    (∃ e, calculate_metrics [⟨"p", [0, 0, 100, 100]⟩]
      [⟨"g", [500, 200, 100, 600]⟩] = .error e) :=
  ⟨(C10_error_propagation.1 [0, 0, 0, 0] [0, 0, 100, 100]).mpr
      (Or.inl (by decide)),
    C10_error_propagation.2.1 ⟨"p", [0, 0, 100, 100]⟩ []
      [⟨"g", [500, 200, 100, 600]⟩] (1/2) (by simp)
      (Or.inr ⟨⟨"g", [500, 200, 100, 600]⟩, List.mem_cons_self _ _, by decide⟩),
    C10_error_propagation.2.2 ⟨"p", [0, 0, 100, 100]⟩ []
      [⟨"g", [500, 200, 100, 600]⟩] (by simp)
      (Or.inr ⟨⟨"g", [500, 200, 100, 600]⟩, List.mem_cons_self _ _, by decide⟩)⟩

/-- Counterexample to C10 as stated: an invalid bounding box that the
matching loops never reach raises no exception — an invalid ground-truth
box with no predictions, and an invalid second prediction processed after
the only ground-truth room has been used, both return `.ok`. -/
theorem C10_counterexample :
    validBoxB [500, 200, 100, 600] = false ∧
    match_rooms [] [⟨"g1", [500, 200, 100, 600]⟩] (1/2) = .ok [] ∧
    validBoxB [900, 200, 100, 600] = false ∧
    match_rooms [⟨"p1", [0, 0, 100, 100]⟩, ⟨"p2", [900, 200, 100, 600]⟩]
        [⟨"g1", [0, 0, 100, 100]⟩] (1/2) =
      .ok [(⟨"p1", [0, 0, 100, 100]⟩, ⟨"g1", [0, 0, 100, 100]⟩, 1)] := by
  refine ⟨by decide, by with_unfolding_all rfl, by decide, ?_⟩
  with_unfolding_all rfl


/-! ## Room validator results (C6, C7, C8) -/

/-- C6: `validate_rooms` never raises: it returns exactly the subsequence of
input records that pass `validate_room`, in their original relative order;
in particular, on a 3-element input whose second element has inverted
coordinates it returns exactly the two valid elements in order. -/
theorem C6_validate_rooms_filter :
    (∀ rooms : List RawRoom,
      validate_rooms rooms =
        rooms.filter (fun r => exceptOk (validate_room r))) ∧
    validate_rooms
        [⟨some "room_001", some (.arr [.num 100, .num 200, .num 500, .num 600])⟩,
          ⟨some "room_002", some (.arr [.num 500, .num 200, .num 100, .num 600])⟩,
          ⟨some "room_003", some (.arr [.num 200, .num 300, .num 600, .num 700])⟩] =
      [⟨some "room_001", some (.arr [.num 100, .num 200, .num 500, .num 600])⟩,
        ⟨some "room_003", some (.arr [.num 200, .num 300, .num 600, .num 700])⟩] := by
  constructor
  · intro rooms
    induction rooms with
    | nil => rfl
    | cons r rest ih =>
      rw [validate_rooms, List.filter_cons]
      cases hv : validate_room r with
      | ok b => simp [exceptOk, hv, ih]
      | error e => simp [exceptOk, hv, ih]
  · with_unfolding_all rfl

theorem strContains_prefix_lit (n t : String) : strContains (n ++ t) n :=
  ⟨[], t.toList, by simp⟩

theorem strContains_append_left {a : String} {n : String}
    (h : strContains a n) (b : String) : strContains (a ++ b) n := by
  obtain ⟨s, t, hst⟩ := h
  refine ⟨s, t ++ b.toList, ?_⟩
  have hl : (a ++ b).toList = a.toList ++ b.toList := rfl
  rw [hl, ← hst]
  simp

theorem strContains_append_right {b : String} {n : String}
    (h : strContains b n) (a : String) : strContains (a ++ b) n := by
  obtain ⟨s, t, hst⟩ := h
  refine ⟨a.toList ++ s, t, ?_⟩
  have hl : (a ++ b).toList = a.toList ++ b.toList := rfl
  rw [hl, ← hst]
  simp

theorem check_coord_ok {v : Json} {nm : String} {q : ℚ}
    (h1 : coordNum v = some q) (h2 : 0 ≤ q) (h3 : q ≤ 1000) :
    check_coord v nm = .ok q := by
  unfold check_coord
  rw [h1]
  dsimp only
  rw [if_pos ⟨h2, h3⟩]

theorem check_coord_ok_inv {v : Json} {nm : String} {q : ℚ}
    (h : check_coord v nm = .ok q) :
    coordNum v = some q ∧ 0 ≤ q ∧ q ≤ 1000 := by
  unfold check_coord at h
  cases hcv : coordNum v with
  | none =>
    rw [hcv] at h
    exact Except.noConfusion h
  | some q' =>
    rw [hcv] at h
    dsimp only at h
    split_ifs at h with hr
    all_goals first
    | exact Except.noConfusion h
    | (have hq : q' = q := by simpa using h
       cases hq
       exact ⟨rfl, hr.1, hr.2⟩)

theorem check_coord_error_names {v : Json} {nm e : String}
    (h : check_coord v nm = .error e) :
    strContains e nm ∧
      (coordNum v = none ∨ ∃ q, coordNum v = some q ∧ ¬(0 ≤ q ∧ q ≤ 1000)) := by
  unfold check_coord at h
  cases hcv : coordNum v with
  | none =>
    rw [hcv] at h
    dsimp only at h
    have he : nm ++ " must be a number, got " ++ typeName v = e := by
      simpa using h
    refine ⟨?_, Or.inl rfl⟩
    rw [← he]
    exact strContains_append_left
      (strContains_prefix_lit nm " must be a number, got ") (typeName v)
  | some q =>
    rw [hcv] at h
    dsimp only at h
    split_ifs at h with hr
    all_goals first
    | exact Except.noConfusion h
    | (have he : nm ++ " (" ++ pyStr v ++ ") must be between 0 and 1000" = e := by
         simpa using h
       refine ⟨?_, Or.inr ⟨q, rfl, hr⟩⟩
       rw [← he]
       exact strContains_append_left (strContains_append_left
         (strContains_prefix_lit nm " (") (pyStr v)) ") must be between 0 and 1000")


theorem validate_bbox_err1 {w x y z : Json} {rid : Option String} {e : String}
    (hw : check_coord w "x_min" = .error e) :
    validate_bounding_box (Json.arr [w, x, y, z]) rid = .error e := by
  simp only [validate_bounding_box]
  rw [hw]
  rfl

theorem validate_bbox_err2 {w x y z : Json} {rid : Option String} {a : ℚ}
    {e : String} (hw : check_coord w "x_min" = .ok a)
    (hx : check_coord x "y_min" = .error e) :
    validate_bounding_box (Json.arr [w, x, y, z]) rid = .error e := by
  simp only [validate_bounding_box]
  rw [hw, bind_ok_rv, hx]
  rfl

theorem validate_bbox_err3 {w x y z : Json} {rid : Option String} {a b : ℚ}
    {e : String} (hw : check_coord w "x_min" = .ok a)
    (hx : check_coord x "y_min" = .ok b)
    (hy : check_coord y "x_max" = .error e) :
    validate_bounding_box (Json.arr [w, x, y, z]) rid = .error e := by
  simp only [validate_bounding_box]
  rw [hw, bind_ok_rv, hx, bind_ok_rv, hy]
  rfl

theorem validate_bbox_err4 {w x y z : Json} {rid : Option String} {a b c : ℚ}
    {e : String} (hw : check_coord w "x_min" = .ok a)
    (hx : check_coord x "y_min" = .ok b)
    (hy : check_coord y "x_max" = .ok c)
    (hz : check_coord z "y_max" = .error e) :
    validate_bounding_box (Json.arr [w, x, y, z]) rid = .error e := by
  simp only [validate_bounding_box]
  rw [hw, bind_ok_rv, hx, bind_ok_rv, hy, bind_ok_rv, hz]
  rfl

theorem validate_bbox_reduce (rid : Option String) {w x y z : Json} {a b c d : ℚ}
    (hw : check_coord w "x_min" = .ok a) (hx : check_coord x "y_min" = .ok b)
    (hy : check_coord y "x_max" = .ok c) (hz : check_coord z "y_max" = .ok d) :
    validate_bounding_box (Json.arr [w, x, y, z]) rid =
      (if c ≤ a then
        .error ("x_min (" ++ pyStr w ++ ") must be less than " ++
          ("x_max" ++ (" (" ++ pyStr y ++ ")")))
      else if d ≤ b then
        .error ("y_min (" ++ pyStr x ++ ") must be less than " ++
          ("y_max" ++ (" (" ++ pyStr z ++ ")")))
      else .ok true) := by
  simp only [validate_bounding_box]
  rw [hw, bind_ok_rv, hx, bind_ok_rv, hy, bind_ok_rv, hz, bind_ok_rv]

/-- C7 (amended): `validate_bounding_box` fails with a schema-class error
unless the box is a 4-element list, then with a range-class error naming
the (first) offending coordinate unless every coordinate is numeric and in
`[0, 1000]`, then with a geometry-class error naming both offending
coordinates unless `x_min < x_max` and `y_min < y_max`, and otherwise
returns `True`.  (The amendment: the `room_id` argument never appears in
any message — the result is entirely independent of it — contrary to the
claimed "when a room_id is supplied the error message includes it".) -/
theorem C7_validate_bounding_box (bbox : Json) (rid : Option String) :
    validate_bounding_box bbox rid = validate_bounding_box bbox none ∧
    ((∀ l, bbox ≠ Json.arr l) → ∃ e, validate_bounding_box bbox rid = .error e) ∧
    (∀ l, bbox = Json.arr l → l.length ≠ 4 →
      ∃ e, validate_bounding_box bbox rid = .error e) ∧
    (∀ w x y z, bbox = Json.arr [w, x, y, z] →
      ((¬ ∀ v ∈ [w, x, y, z], ∃ q, coordNum v = some q ∧ 0 ≤ q ∧ q ≤ 1000) →
        ∃ e p, p ∈ [(w, "x_min"), (x, "y_min"), (y, "x_max"), (z, "y_max")] ∧
          (coordNum p.1 = none ∨
            ∃ q, coordNum p.1 = some q ∧ ¬(0 ≤ q ∧ q ≤ 1000)) ∧
          validate_bounding_box bbox rid = .error e ∧ strContains e p.2) ∧
      (∀ a b c d, coordNum w = some a → coordNum x = some b →
        coordNum y = some c → coordNum z = some d →
        0 ≤ a → a ≤ 1000 → 0 ≤ b → b ≤ 1000 → 0 ≤ c → c ≤ 1000 →
        0 ≤ d → d ≤ 1000 →
        (c ≤ a → ∃ e, validate_bounding_box bbox rid = .error e ∧
          strContains e "x_min" ∧ strContains e "x_max") ∧
        (a < c → d ≤ b → ∃ e, validate_bounding_box bbox rid = .error e ∧
          strContains e "y_min" ∧ strContains e "y_max") ∧
        (a < c → b < d → validate_bounding_box bbox rid = .ok true))) := by
  refine ⟨rfl, ?_, ?_, ?_⟩
  · intro hna
    cases bbox with
    | null => exact ⟨_, rfl⟩
    | bool b => exact ⟨_, rfl⟩
    | num q => exact ⟨_, rfl⟩
    | str s => exact ⟨_, rfl⟩
    | obj kvs => exact ⟨_, rfl⟩
    | arr l => exact absurd rfl (hna l)
  · rintro l rfl hlen
    match l, hlen with
    | [], _ => exact ⟨_, rfl⟩
    | [v1], _ => exact ⟨_, rfl⟩
    | [v1, v2], _ => exact ⟨_, rfl⟩
    | [v1, v2, v3], _ => exact ⟨_, rfl⟩
    | [v1, v2, v3, v4], hlen => simp at hlen
    | v1 :: v2 :: v3 :: v4 :: v5 :: lr, _ => exact ⟨_, rfl⟩
  · rintro w x y z rfl
    constructor
    · intro hbad
      cases hw : check_coord w "x_min" with
      | error e =>
        have hn := check_coord_error_names hw
        exact ⟨e, (w, "x_min"), by simp, hn.2, validate_bbox_err1 hw, hn.1⟩
      | ok a =>
        cases hx : check_coord x "y_min" with
        | error e =>
          have hn := check_coord_error_names hx
          exact ⟨e, (x, "y_min"), by simp, hn.2, validate_bbox_err2 hw hx, hn.1⟩
        | ok b =>
          cases hy : check_coord y "x_max" with
          | error e =>
            have hn := check_coord_error_names hy
            exact ⟨e, (y, "x_max"), by simp, hn.2,
              validate_bbox_err3 hw hx hy, hn.1⟩
          | ok c =>
            cases hz : check_coord z "y_max" with
            | error e =>
              have hn := check_coord_error_names hz
              exact ⟨e, (z, "y_max"), by simp, hn.2,
                validate_bbox_err4 hw hx hy hz, hn.1⟩
            | ok d =>
              exfalso
              apply hbad
              intro v hv
              simp only [List.mem_cons, List.not_mem_nil, or_false] at hv
              rcases hv with rfl | rfl | rfl | rfl
              · exact ⟨a, (check_coord_ok_inv hw).1, (check_coord_ok_inv hw).2⟩
              · exact ⟨b, (check_coord_ok_inv hx).1, (check_coord_ok_inv hx).2⟩
              · exact ⟨c, (check_coord_ok_inv hy).1, (check_coord_ok_inv hy).2⟩
              · exact ⟨d, (check_coord_ok_inv hz).1, (check_coord_ok_inv hz).2⟩
    · intro a b c d hwa hxb hyc hzd h1 h2 h3 h4 h5 h6 h7 h8
      have hred := validate_bbox_reduce rid
        (check_coord_ok hwa h1 h2) (check_coord_ok hxb h3 h4)
        (check_coord_ok hyc h5 h6) (check_coord_ok hzd h7 h8)
      refine ⟨?_, ?_, ?_⟩
      · intro hca
        refine ⟨"x_min (" ++ pyStr w ++ ") must be less than " ++
          ("x_max" ++ (" (" ++ pyStr y ++ ")")), ?_, ?_, ?_⟩
        · rw [hred, if_pos hca]
        · exact strContains_append_left (strContains_append_left
            (strContains_append_left (by decide) (pyStr w))
            ") must be less than ") _
        · exact strContains_append_right
            (strContains_prefix_lit "x_max" (" (" ++ pyStr y ++ ")")) _
      · intro hac hdb
        refine ⟨"y_min (" ++ pyStr x ++ ") must be less than " ++
          ("y_max" ++ (" (" ++ pyStr z ++ ")")), ?_, ?_, ?_⟩
        · rw [hred, if_neg (not_le.mpr hac), if_pos hdb]
        · exact strContains_append_left (strContains_append_left
            (strContains_append_left (by decide) (pyStr x))
            ") must be less than ") _
        · exact strContains_append_right
            (strContains_prefix_lit "y_max" (" (" ++ pyStr z ++ ")")) _
      · intro hac hbd
        rw [hred, if_neg (not_le.mpr hac), if_neg (not_le.mpr hbd)]


/-- Witness for C7: the inverted box `[500, 200, 100, 600]` fails with a
geometry-class error naming both `x_min` and `x_max`, and the result does
not depend on the supplied room id. -/
theorem C7_validate_bounding_box_witness :
    validate_bounding_box (Json.arr [.num 500, .num 200, .num 100, .num 600])
        (some "living_room") =
      validate_bounding_box (Json.arr [.num 500, .num 200, .num 100, .num 600])
        none ∧
    (∃ e, validate_bounding_box
        (Json.arr [.num 500, .num 200, .num 100, .num 600])
        (some "living_room") = .error e ∧
      strContains e "x_min" ∧ strContains e "x_max") := by
  have h := C7_validate_bounding_box
    (Json.arr [.num 500, .num 200, .num 100, .num 600]) (some "living_room")
  refine ⟨h.1, ?_⟩
  have h4 := ((h.2.2.2 (.num 500) (.num 200) (.num 100) (.num 600) rfl).2
    500 200 100 600 rfl rfl rfl rfl (by norm_num) (by norm_num) (by norm_num)
    (by norm_num) (by norm_num) (by norm_num) (by norm_num) (by norm_num)).1
  exact h4 (by norm_num)

/-- Counterexample to C7 as stated: with a room id supplied, the error
message does not include it — `room_id` is accepted but never used. -/
theorem C7_counterexample :
    validate_bounding_box (Json.arr [.num 500, .num 200, .num 100, .num 600])
        (some "living_room") =
      .error "x_min (500) must be less than x_max (100)" ∧
    ¬ strContains "x_min (500) must be less than x_max (100)" "living_room" := by
  constructor
  · with_unfolding_all rfl
  · decide

/-- C8 (amended): `sanitize_coordinates` on a 4-element numeric list clamps
every coordinate into `[0, 1000]` and restores ordering with the nudged
max, but the ordering guarantee is only `min ≤ max` in general: it is
strict whenever the clamped min is below 1000, while a min clamped to
exactly 1000 leaves `min = max = 1000`. -/
theorem C8_sanitize_coordinates (a b c d : ℚ) :
    ∃ a' b' c' d', sanitize_coordinates [a, b, c, d] = some [a', b', c', d'] ∧
      0 ≤ a' ∧ a' ≤ 1000 ∧ 0 ≤ b' ∧ b' ≤ 1000 ∧ 0 ≤ c' ∧ c' ≤ 1000 ∧
      0 ≤ d' ∧ d' ≤ 1000 ∧ a' ≤ c' ∧ b' ≤ d' ∧
      (a' < 1000 → a' < c') ∧ (b' < 1000 → b' < d') := by
  have hb1 : (0 : ℚ) ≤ max 0 (min a 1000) := le_max_left _ _
  have hb2 : max 0 (min a 1000) ≤ 1000 := max_le (by norm_num) (min_le_right _ _)
  have hb3 : (0 : ℚ) ≤ max 0 (min b 1000) := le_max_left _ _
  have hb4 : max 0 (min b 1000) ≤ 1000 := max_le (by norm_num) (min_le_right _ _)
  have hb5 : (0 : ℚ) ≤ max 0 (min c 1000) := le_max_left _ _
  have hb6 : max 0 (min c 1000) ≤ 1000 := max_le (by norm_num) (min_le_right _ _)
  have hb7 : (0 : ℚ) ≤ max 0 (min d 1000) := le_max_left _ _
  have hb8 : max 0 (min d 1000) ≤ 1000 := max_le (by norm_num) (min_le_right _ _)
  refine ⟨max 0 (min a 1000), max 0 (min b 1000),
    (if max 0 (min c 1000) ≤ max 0 (min a 1000) then
      min (max 0 (min a 1000) + 1) 1000 else max 0 (min c 1000)),
    (if max 0 (min d 1000) ≤ max 0 (min b 1000) then
      min (max 0 (min b 1000) + 1) 1000 else max 0 (min d 1000)),
    rfl, hb1, hb2, hb3, hb4, ?_, ?_, ?_, ?_, ?_, ?_, ?_, ?_⟩
  · split_ifs with h
    · exact le_min (by linarith) (by norm_num)
    · exact hb5
  · split_ifs with h
    · exact min_le_right _ _
    · exact hb6
  · split_ifs with h
    · exact le_min (by linarith) (by norm_num)
    · exact hb7
  · split_ifs with h
    · exact min_le_right _ _
    · exact hb8
  · split_ifs with h
    · exact le_min (by linarith) hb2
    · linarith [not_le.mp h]
  · split_ifs with h
    · exact le_min (by linarith) hb4
    · linarith [not_le.mp h]
  · intro hlt
    split_ifs with h
    · exact lt_min (by linarith) hlt
    · linarith [not_le.mp h]
  · intro hlt
    split_ifs with h
    · exact lt_min (by linarith) hlt
    · linarith [not_le.mp h]

/-- Witness for C8 at the spec's example `[-10, 200, 1500, 600]`. -/
theorem C8_sanitize_coordinates_witness :
    ∃ a' b' c' d',
      sanitize_coordinates [-10, 200, 1500, 600] = some [a', b', c', d'] ∧
      0 ≤ a' ∧ a' ≤ 1000 ∧ 0 ≤ b' ∧ b' ≤ 1000 ∧ 0 ≤ c' ∧ c' ≤ 1000 ∧
      0 ≤ d' ∧ d' ≤ 1000 ∧ a' ≤ c' ∧ b' ≤ d' ∧
      (a' < 1000 → a' < c') ∧ (b' < 1000 → b' < d') :=
  C8_sanitize_coordinates (-10) 200 1500 600

/-- Counterexample to C8 as stated: when the clamped `x_min` is exactly
1000, the nudge is clamped back to 1000 and the result has
`x_min = x_max = 1000`, not strict ordering. -/
theorem C8_counterexample :
    sanitize_coordinates [1000, 200, 100, 600] = some [1000, 200, 1000, 600] ∧
    ¬ ((1000 : ℚ) < 1000) := by
  constructor
  · with_unfolding_all rfl
  · norm_num


/-! ## Detection orchestrator (C5) -/

/-- C5: `execute` never lets an exception escape: it always returns an
envelope reporting `t_end - t_start` as the processing time; when any
pipeline stage raises, the envelope has `success = false`, the raised
message in `error`, and an empty room list; when every stage succeeds it
has `success = true`, `error = none` (null), and the validated room list. -/
theorem C5_execute_envelope {Img : Type} (preprocess : Img → Except String Img)
    (get_prompt : String → Bool → Except String String)
    (invoke_model : Img → String → Except String String)
    (sanitize : String → Except String (List RawRoom))
    (validate : List RawRoom → Except String (List RawRoom))
    (image : Img) (complexity : String) (has_small_text : Bool)
    (t_start t_end : ℚ) :
    (execute preprocess get_prompt invoke_model sanitize validate image
        complexity has_small_text t_start t_end).processing_time =
      t_end - t_start ∧
    (∀ e, run_pipeline preprocess get_prompt invoke_model sanitize validate
        image complexity has_small_text = .error e →
      execute preprocess get_prompt invoke_model sanitize validate image
          complexity has_small_text t_start t_end =
        ⟨false, [], t_end - t_start, some e⟩) ∧
    (∀ rs, run_pipeline preprocess get_prompt invoke_model sanitize validate
        image complexity has_small_text = .ok rs →
      execute preprocess get_prompt invoke_model sanitize validate image
          complexity has_small_text t_start t_end =
        ⟨true, rs, t_end - t_start, none⟩) := by
  cases hrp : run_pipeline preprocess get_prompt invoke_model sanitize validate
      image complexity has_small_text with
  | ok rs =>
    have hx : execute preprocess get_prompt invoke_model sanitize validate
        image complexity has_small_text t_start t_end =
        ⟨true, rs, t_end - t_start, none⟩ := by
      unfold execute
      rw [hrp]
    refine ⟨by rw [hx], ?_, ?_⟩
    · intro e he
      exact Except.noConfusion he
    · intro rs' h'
      have hr : rs = rs' := by simpa using h'
      rw [hx, hr]
  | error e =>
    have hx : execute preprocess get_prompt invoke_model sanitize validate
        image complexity has_small_text t_start t_end =
        ⟨false, [], t_end - t_start, some e⟩ := by
      unfold execute
      rw [hrp]
    refine ⟨by rw [hx], ?_, ?_⟩
    · intro e' he
      have hr : e = e' := by simpa using he
      rw [hx, hr]
    · intro rs h'
      exact Except.noConfusion h'

/-- Witness for C5: a concrete pipeline whose parse stage raises. -/
theorem C5_execute_envelope_witness :
    execute (fun u => .ok u) (fun _ _ => .ok "prompt")
        (fun _ _ => .ok "model response")
        (fun _ => .error "Invalid JSON: Expecting value")
        (fun rs => .ok rs) () "standard" false 10 12 =
      ⟨false, [], 12 - 10, some "Invalid JSON: Expecting value"⟩ :=
  (C5_execute_envelope (fun u : Unit => .ok u) (fun _ _ => .ok "prompt")
    (fun _ _ => .ok "model response")
    (fun _ => .error "Invalid JSON: Expecting value")
    (fun rs => .ok rs) () "standard" false 10 12).2.1
    "Invalid JSON: Expecting value" rfl

/-! ## Response parser at the failing input (C9) -/

/-- C9: the code at the claim's own inputs.  The pure-JSON response (no
markdown fence) is truncated by the non-greedy bare-array regex at the
first `]` — the one closing the nested `bounding_box` array — so
`sanitize_response` raises a parse error instead of returning the record,
contradicting the claim and the repository's own
`test_extract_json_direct`; the fenced variant of the same payload parses
to exactly one record with id `room_001`. -/
theorem C9_pure_json_truncated :
    sanitize_response
        "[\x7b\"id\": \"room_001\", \"bounding_box\": [100, 200, 500, 600]\x7d]" =
      .error "Invalid JSON: Expecting value" ∧
    extract_json_from_response
        "[\x7b\"id\": \"room_001\", \"bounding_box\": [100, 200, 500, 600]\x7d]" =
      "[\x7b\"id\": \"room_001\", \"bounding_box\": [100, 200, 500, 600]" ∧
    sanitize_response
        "prefix ```json\n[\x7b\"id\":\"room_001\",\"bounding_box\":[100,200,500,600]\x7d]\n``` suffix" =
      .ok [Json.obj [("id", Json.str "room_001"),
        ("bounding_box", Json.arr [.num 100, .num 200, .num 500, .num 600])]] := by
  refine ⟨?_, ?_, ?_⟩
  · with_unfolding_all rfl
  · with_unfolding_all rfl
  · with_unfolding_all rfl

end RoomVision
